import Mathlib

/-!
Verification development for the BIDS validator core
(`src/utils/type.js`, `src/unnamed/part_000` = the validator module).

The JavaScript source is shallowly embedded:

* the path-grammar regular expressions of `utils/type.js` become
  backtracking matchers over `List Char` (JS `RegExp.exec` with greedy
  optional groups and ordered alternation is reproduced by trying the
  "present" branch of each optional group first, falling back to the
  "absent" branch; character-class labels such as `[a-zA-Z0-9]+` that are
  always followed by a character outside the class are matched maximally,
  which coincides with the backtracking semantics, and label positions
  whose follower can be inside the class use a fully nondeterministic
  run matcher);
* an unescaped `.` in the source regexes matches any character except a
  line terminator (JS semantics), embedded as `anyC`;
* `groupModalities`, `formatIssues`, `quickTest` and the per-file phase-1
  dispatch of `fullTest` become pure functions over explicit state, with
  the external collaborators (content validators, file reading, the issue
  metadata table) passed as parameters.
-/

/-! ### Character classes and low-level string helpers -/

/-- JS character class `[a-zA-Z0-9]` (ASCII only, as in the source regexes). -/
def isAlnumCh (c : Char) : Bool :=
  ('a' ≤ c && c ≤ 'z') || ('A' ≤ c && c ≤ 'Z') || ('0' ≤ c && c ≤ '9')

/-- JS character class `[0-9]`. -/
def isDigitCh (c : Char) : Bool := '0' ≤ c && c ≤ '9'

/-- A character that an unescaped `.` in a JS regex (without the `s` flag)
matches: anything except a line terminator. -/
def notLineTerm (c : Char) : Bool :=
  !(c = '\n' || c = '\r' || c = Char.ofNat 0x2028 || c = Char.ofNat 0x2029)

/-- Strip a literal front part: `dropPre w s = some r` iff `s = w ++ r`. -/
def dropPre : List Char → List Char → Option (List Char)
  | [], s => some s
  | _ :: _, [] => none
  | c :: cs, d :: ds => if c = d then dropPre cs ds else none

/-- Does `pat` occur as a contiguous subsequence of `s`?
(Embeds JS `String.prototype.includes` / `indexOf(...) > -1`.) -/
def containsSeq (pat : List Char) : List Char → Bool
  | [] => (dropPre pat []).isSome
  | c :: cs => (dropPre pat (c :: cs)).isSome || containsSeq pat cs

/-- Index of the first occurrence of `pat` in `s` (JS `indexOf` on strings). -/
def idxOfSeq (pat : List Char) : List Char → Option Nat
  | [] => if (dropPre pat []).isSome then some 0 else none
  | c :: cs =>
    if (dropPre pat (c :: cs)).isSome then some 0
    else (idxOfSeq pat cs).map (· + 1)

/-- Test that `s` ends with `suf` (JS `String.prototype.endsWith`). -/
def endsWithCL (suf s : List Char) : Bool := (dropPre suf.reverse s.reverse).isSome

/-- Test that `s` starts with `pre` (JS `indexOf(pre) == 0`). -/
def startsWithCL (pre s : List Char) : Bool := (dropPre pre s).isSome

/-- JS `String.prototype.split` with a single-character separator. -/
def splitOnCh (sep : Char) : List Char → List (List Char)
  | [] => [[]]
  | c :: cs =>
    if c = sep then [] :: splitOnCh sep cs
    else
      match splitOnCh sep cs with
      | [] => [[c]]
      | p :: ps => (c :: p) :: ps

/-! ### Regex combinators

A matcher of type `ReTail` consumes the whole remaining character list and
says whether it matches the remainder of the regex (all source regexes are
anchored with `^...$`).  Alternation and optional groups are fully
backtracking, so `k s = true` iff some decomposition of `s` fits. -/

/-- A continuation-style matcher for an anchored regex tail. -/
def ReTail : Type := List Char → Bool

/-- End of input: the regex anchor `$`. -/
def eosC : ReTail := fun s => s.isEmpty

/-- A literal piece of the regex followed by the rest. -/
def litC (w : List Char) (k : ReTail) : ReTail := fun s =>
  match dropPre w s with
  | some r => k r
  | none => false

/-- An unescaped `.` in the regex: any non-line-terminator character. -/
def anyC (k : ReTail) : ReTail := fun s =>
  match s with
  | [] => false
  | c :: r => notLineTerm c && k r

/-- Ordered alternation `(x|y|...)` (each alternative already carries the
continuation). -/
def altsC (fs : List ReTail) : ReTail := fun s => fs.any (fun f => f s)

/-- The piece `[a-zA-Z0-9]+` followed by the rest; tries every nonempty split
(complete backtracking). -/
def alnumRunBT (k : ReTail) : List Char → Bool
  | [] => false
  | c :: cs => isAlnumCh c && (k cs || alnumRunBT k cs)

/-- The piece `[0-9]+` followed by the rest; tries every nonempty split. -/
def digitRunBT (k : ReTail) : List Char → Bool
  | [] => false
  | c :: cs => isDigitCh c && (k cs || digitRunBT k cs)

/-- An optional tag group `(?:PRE[a-zA-Z0-9]+)?` (e.g. `(?:_acq-[a-zA-Z0-9]+)?`). -/
def optTagA (pre : List Char) (k : ReTail) : ReTail := fun s =>
  litC pre (alnumRunBT k) s || k s

/-- An optional numeric tag group `(?:PRE[0-9]+)?` (e.g. `(?:_run-[0-9]+)?`). -/
def optTagD (pre : List Char) (k : ReTail) : ReTail := fun s =>
  litC pre (digitRunBT k) s || k s

/-- An optional numeric tag group with a trailing underscore inside the
group, `(?:PRE[0-9]+_)?` (the `(?:_run-[0-9]+_)?` shape). -/
def optTagDU (pre : List Char) (k : ReTail) : ReTail := fun s =>
  litC pre (digitRunBT (litC ['_'] k)) s || k s

/-- An optional literal group `(?:w)?`. -/
def optLitC (w : List Char) (k : ReTail) : ReTail := fun s =>
  litC w k s || k s

/-! ### The common skeleton of the conditional-match regexes

Each of `isAnat`, `isDWI`, `isFunc`, `isBehavioral`, `isCont`,
`isFieldMap`, and the four session-level regexes has the shape

  `^\/(sub-[a-zA-Z0-9]+)\/(?:(ses-[a-zA-Z0-9]+)\/)?DIR\/?\1(_\2)?REST$`

where `DIR` is a fixed directory-name alternation (absent for the
session-level regexes), group 1 is the subject segment, group 2 the
optional session segment, group 3 the optional `_`-plus-backreference-2
filename token, and `REST` captures nothing that `conditionalMatch`
inspects.  `GroupMatch` records groups 2 and 3 of a successful match
(`none` = the group did not participate). -/

structure GroupMatch where
  g2 : Option (List Char)
  g3 : Option (List Char)
deriving DecidableEq

/-- Match `PRE ++ label ++ "/"` where `label` is a nonempty `[a-zA-Z0-9]+`
run; returns the captured segment (`PRE ++ label`) and the characters
after the slash.  The label is matched maximally: it is always followed by
`/`, which is outside the character class, so maximal matching coincides
with the JS backtracking semantics. -/
def parseSeg (pre : List Char) (s : List Char) : Option (List Char × List Char) :=
  match dropPre pre s with
  | none => none
  | some s1 =>
    if (s1.takeWhile isAlnumCh).isEmpty then none
    else
      match s1.dropWhile isAlnumCh with
      | [] => none
      | c :: r =>
        if c = '/' then some (pre ++ s1.takeWhile isAlnumCh, r) else none

/-- Match the directory-name part: `dirs = []` means the regex has no
directory segment (session-level shapes); otherwise the first alternative
`d` with `d ++ "/"` a front part of `s` is taken (the alternatives of the
one multi-directory regex, `func|beh`, never share a first character, so
first-fit equals full backtracking). -/
def matchDirs (dirs : List (List Char)) (s : List Char) : Option (List Char) :=
  match dirs with
  | [] => some s
  | _ => dirs.findSome? (fun d => dropPre (d ++ ['/']) s)

/-- Match `\1(_\2)?REST$` against `s`: the repeated subject name, then the
greedy optional group 3 (`_` followed by backreference 2; an absent group
2 backreference matches the empty string, as in JS), then `REST`.  The
"group 3 present" branch is tried first, mirroring greedy `?`. -/
def matchName (sub : List Char) (g2 : Option (List Char)) (rest : ReTail)
    (s : List Char) : Option GroupMatch :=
  match dropPre sub s with
  | none => none
  | some s1 =>
    match dropPre ('_' :: g2.getD []) s1 with
    | some s2 =>
      if rest s2 then some ⟨g2, some ('_' :: g2.getD [])⟩
      else if rest s1 then some ⟨g2, none⟩
      else none
    | none => if rest s1 then some ⟨g2, none⟩ else none

/-- Match the whole skeleton
`^\/(sub-[a-zA-Z0-9]+)\/(?:(ses-[a-zA-Z0-9]+)\/)?DIR\/?\1(_\2)?REST$`
against a path.  The greedy optional session-directory group is tried
first; if no match results, the group-absent branch is tried. -/
def matchEntity (dirs : List (List Char)) (rest : ReTail) (p : List Char) :
    Option GroupMatch :=
  match p with
  | [] => none
  | c :: s =>
    if c = '/' then
      match parseSeg "sub-".toList s with
      | none => none
      | some x =>
        match (parseSeg "ses-".toList x.2).bind (fun y =>
                (matchDirs dirs y.2).bind (matchName x.1 (some y.1) rest)) with
        | some g => some g
        | none => (matchDirs dirs x.2).bind (matchName x.1 none rest)
    else none

/-- The function `conditionalMatch` of `utils/type.js` (lines 188–198): a successful
regex match is accepted iff groups 2 and 3 both participated, or group 2
did not participate. -/
def conditionalMatch (m : Option GroupMatch) : Bool :=
  match m with
  | none => false
  | some g => (g.g2.isSome && g.g3.isSome) || g.g2.isNone

/-! ### The concrete grammars of `utils/type.js` -/

/-- The function `anatSuffixes` (type.js line 8). -/
def anatSuffixes : List String :=
  ["T1w", "T2w", "T1map", "T2map", "FLAIR", "PD", "PDT2", "inplaneT1",
   "inplaneT2", "angio", "defacemask", "SWImagandphase"]

/-- A regex piece `A.B$` where `.` is the JS any-character dot. -/
def dotted2 (a b : String) : ReTail := litC a.toList (anyC (litC b.toList eosC))

/-- A regex piece `A.B.C$`. -/
def dotted3 (a b c : String) : ReTail :=
  litC a.toList (anyC (litC b.toList (anyC (litC c.toList eosC))))

/-- A suffix alternation followed by an any-character dot and `ext`:
`(?:S1|S2|...).EXT`. -/
def sfxAlt (sfxs : List String) (ext : ReTail) : ReTail :=
  altsC (sfxs.map (fun w => litC w.toList (anyC ext)))

/-- The extension alternation `(nii.gz|nii|json)`. -/
def extAltNiiJson : ReTail :=
  altsC [litC "nii".toList (anyC (litC "gz".toList eosC)),
         litC "nii".toList eosC, litC "json".toList eosC]

/-- The extension alternation `(nii.gz|nii|json|bvec|bval)`. -/
def extAltDwi : ReTail :=
  altsC [litC "nii".toList (anyC (litC "gz".toList eosC)),
         litC "nii".toList eosC, litC "json".toList eosC,
         litC "bvec".toList eosC, litC "bval".toList eosC]

/-- Tail of `anatRe` (isAnat, type.js 109–114) after `\1(_\2)?`:
`(?:_acq-[a-zA-Z0-9]+)?(?:_rec-[a-zA-Z0-9]+)?(?:_run-[0-9]+)?_(?:SFX...).(nii.gz|nii|json)$`. -/
def anatRest : ReTail :=
  optTagA "_acq-".toList (optTagA "_rec-".toList (optTagD "_run-".toList
    (litC ['_'] (sfxAlt anatSuffixes extAltNiiJson))))

/-- The function `isAnat` (type.js 108–116). -/
def isAnat (p : String) : Bool :=
  conditionalMatch (matchEntity ["anat".toList] anatRest p.toList)

/-- Tail of the isDWI regex (type.js 121–130). -/
def dwiRest : ReTail :=
  optTagA "_acq-".toList (optTagA "_rec-".toList (optTagD "_run-".toList
    (litC ['_'] (sfxAlt ["dwi", "sbref"] extAltDwi))))

/-- The function `isDWI` (type.js 121–130). -/
def isDWI (p : String) : Bool :=
  conditionalMatch (matchEntity ["dwi".toList] dwiRest p.toList)

/-- Tail of the isFieldMap regex (type.js 135–144). -/
def fmapRest : ReTail :=
  optTagA "_acq-".toList (optTagA "_rec-".toList (optTagD "_dir-".toList
    (optTagD "_run-".toList (litC ['_']
      (sfxAlt ["phasediff", "phase1", "phase2", "magnitude1", "magnitude2",
               "fieldmap", "epi"] extAltNiiJson)))))

/-- The function `isFieldMap` (type.js 135–144). -/
def isFieldMap (p : String) : Bool :=
  conditionalMatch (matchEntity ["fmap".toList] fmapRest p.toList)

/-- The final alternation of the isFunc regex (type.js 154). -/
def funcAlt : ReTail :=
  altsC [dotted3 "_bold" "nii" "gz", dotted2 "_bold" "nii",
         dotted2 "_bold" "json", dotted3 "_sbref" "nii" "gz",
         dotted2 "_sbref" "json", dotted2 "_events" "tsv",
         dotted3 "_physio" "tsv" "gz", dotted3 "_stim" "tsv" "gz",
         dotted2 "_physio" "json", dotted2 "_stim" "json"]

/-- Tail of the isFunc regex after `\1(_\2)?`:
`_task-[a-zA-Z0-9]+(?:_acq-...)?(?:_rec-...)?(?:_run-[0-9]+)?(...)$`. -/
def funcRest : ReTail :=
  litC "_task-".toList (alnumRunBT (optTagA "_acq-".toList
    (optTagA "_rec-".toList (optTagD "_run-".toList funcAlt))))

/-- The function `isFunc` (type.js 149–156). -/
def isFunc (p : String) : Bool :=
  conditionalMatch (matchEntity ["func".toList] funcRest p.toList)

/-- The final alternation of the isBehavioral regex (type.js 163). -/
def behAlt : ReTail :=
  altsC [dotted2 "_beh" "json", dotted2 "_events" "tsv",
         dotted3 "_physio" "tsv" "gz", dotted3 "_stim" "tsv" "gz",
         dotted2 "_physio" "json", dotted2 "_stim" "json"]

/-- Tail of the isBehavioral regex (type.js 158–165). -/
def behRest : ReTail :=
  litC "_task-".toList (alnumRunBT (optTagA "_acq-".toList
    (optTagA "_rec-".toList (optTagD "_run-".toList behAlt))))

/-- The function `isBehavioral` (type.js 158–165). -/
def isBehavioral (p : String) : Bool :=
  conditionalMatch (matchEntity ["beh".toList] behRest p.toList)

/-- The final alternation of the isFuncBold regex (type.js 172). -/
def funcBoldAlt : ReTail :=
  altsC [dotted3 "_bold" "nii" "gz", dotted2 "_bold" "nii",
         dotted3 "_sbref" "nii" "gz", dotted2 "_sbref" "nii"]

/-- Tail of the isFuncBold regex (type.js 167–174). -/
def funcBoldRest : ReTail :=
  litC "_task-".toList (alnumRunBT (optTagA "_acq-".toList
    (optTagA "_rec-".toList (optTagD "_run-".toList funcBoldAlt))))

/-- The function `isFuncBold` (type.js 167–174). -/
def isFuncBold (p : String) : Bool :=
  conditionalMatch (matchEntity ["func".toList] funcBoldRest p.toList)

/-- The final alternation of the isCont regex (type.js 182). -/
def contAlt : ReTail :=
  altsC [dotted3 "_physio" "tsv" "gz", dotted3 "_stim" "tsv" "gz",
         dotted2 "_physio" "json", dotted2 "_stim" "json"]

/-- Tail of the isCont regex (type.js 176–184), including the optional
`(?:_recording-[a-zA-Z0-9]+)?` group. -/
def contRest : ReTail :=
  litC "_task-".toList (alnumRunBT (optTagA "_acq-".toList
    (optTagA "_rec-".toList (optTagD "_run-".toList
      (optTagA "_recording-".toList contAlt)))))

/-- The function `isCont` (type.js 176–184); the directory is `(?:func|beh)`. -/
def isCont (p : String) : Bool :=
  conditionalMatch (matchEntity ["func".toList, "beh".toList] contRest p.toList)

/-- Tail of `scansRe` (type.js 73–75): `_scans.tsv$`. -/
def scansRest : ReTail := dotted2 "_scans" "tsv"

/-- The final alternation of `funcSesRe` (type.js 80). -/
def funcSesAlt : ReTail :=
  altsC [dotted2 "_bold" "json", dotted2 "_events" "tsv",
         dotted2 "_physio" "json", dotted2 "_stim" "json"]

/-- Tail of `funcSesRe` (type.js 77–80).  Note: the source has no
underscore between `(_\2)?` and `task-`. -/
def funcSesRest : ReTail :=
  litC "task-".toList (alnumRunBT (optTagA "_acq-".toList
    (optTagA "_rec-".toList (optTagD "_run-".toList funcSesAlt))))

/-- Tail of `anatSesRe` (type.js 82–85): the `run` group carries a
trailing underscore and the suffix alternation follows with no
underscore of its own: `(?:_run-[0-9]+_)?(SFX|...).json$`. -/
def anatSesRest : ReTail :=
  optTagA "_acq-".toList (optTagA "_rec-".toList (optTagDU "_run-".toList
    (sfxAlt anatSuffixes (litC "json".toList eosC))))

/-- Tail of `dwiSesRe` (type.js 87–90):
`(?:_acq-...)?(?:_rec-...)?(?:_run-[0-9]+)?(?:_)?dwi.(?:json|bval|bvec)$`. -/
def dwiSesRest : ReTail :=
  optTagA "_acq-".toList (optTagA "_rec-".toList (optTagD "_run-".toList
    (optLitC ['_'] (litC "dwi".toList (anyC
      (altsC [litC "json".toList eosC, litC "bval".toList eosC,
              litC "bvec".toList eosC]))))))

/-- The function `isSessionLevel` (type.js 72–94): the disjunction of the four
conditional matches. -/
def isSessionLevel (p : String) : Bool :=
  conditionalMatch (matchEntity [] scansRest p.toList) ||
  conditionalMatch (matchEntity [] funcSesRest p.toList) ||
  conditionalMatch (matchEntity [] anatSesRest p.toList) ||
  conditionalMatch (matchEntity [] dwiSesRest p.toList)

/-- The function `isSubjectLevel` (type.js 99–103): `^\/(sub-[a-zA-Z0-9]+)\/\1_sessions.tsv$`. -/
def isSubjectLevel (p : String) : Bool :=
  match p.toList with
  | '/' :: s =>
    match parseSeg "sub-".toList s with
    | some (sub, s1) => litC sub (dotted2 "_sessions" "tsv") s1
    | none => false
  | _ => false

/-- The piece `(?:.*)$` at the end of a JS regex: the rest may be anything without a
line terminator. -/
def anyStarC : ReTail := fun s => s.all notLineTerm

/-- The function `isCodeOrDerivatives` (type.js 58–61). -/
def isCodeOrDerivatives (p : String) : Bool :=
  litC "/code/".toList anyStarC p.toList ||
  litC "/derivatives/".toList anyStarC p.toList

/-- The function `isVersionControl` (type.js 63–66). -/
def isVersionControl (p : String) : Bool := litC "/.git/".toList anyStarC p.toList

/-- The function `fixedTopLevelNames` (type.js 39–40). -/
def fixedTopLevelNames : List String :=
  ["/README", "/CHANGES", "/dataset_description.json", "/participants.tsv",
   "/phasediff.json", "/phase1.json", "/phase2.json", "/fieldmap.json"]

/-- The optional group `(?:ses-[a-zA-Z0-9]+_)?` of the top-level regexes. -/
def optSesU (k : ReTail) : ReTail := fun s =>
  litC "ses-".toList (alnumRunBT (litC ['_'] k)) s || k s

/-- The function `funcTopRe` (type.js 42–43); its tail coincides with `funcSesRest`
prefixed by `task-`'s alternation chain. -/
def funcTop : ReTail := litC ['/'] (optSesU funcSesRest)

/-- The function `anatTopRe` (type.js 45–46); after the optional `ses` group its tail
is the same chain as `anatSesRest`. -/
def anatTop : ReTail := litC ['/'] (optSesU anatSesRest)

/-- The function `dwiTopRe` (type.js 48–49); the `ses` group has no trailing
underscore here, and the tail is the same chain as `dwiSesRest`. -/
def dwiTop : ReTail := litC ['/'] (optTagA "ses-".toList dwiSesRest)

/-- The function `multiDirFieldmapRe` (type.js 51): `^\/(?:dir-[0-9]+)_epi.json$`. -/
def multiDirFieldmap : ReTail :=
  litC "/dir-".toList (digitRunBT (litC "_epi".toList (anyC (litC "json".toList eosC))))

/-- The function `isTopLevel` (type.js 38–56). -/
def isTopLevel (p : String) : Bool :=
  fixedTopLevelNames.any (fun n => p = n) || funcTop p.toList ||
  dwiTop p.toList || anatTop p.toList || multiDirFieldmap p.toList

/-- The function `isBIDS` (type.js 19–33). -/
def isBIDS (p : String) : Bool :=
  isTopLevel p || isCodeOrDerivatives p || isSessionLevel p ||
  isSubjectLevel p || isAnat p || isDWI p || isFunc p || isBehavioral p ||
  isCont p || isFieldMap p || isVersionControl p

example : isAnat "/sub-01/anat/sub-01_T1w.nii.gz" = true := by decide
example : isAnat "/sub-01/ses-01/anat/sub-01_T1w.nii.gz" = false := by decide
example : isAnat "/sub-01/ses-01/anat/sub-01_ses-01_T1w.nii.gz" = true := by decide
example : isAnat "/sub-01/anat/sub-01__T1w.nii" = true := by decide
example : isSessionLevel "/sub-01/sub-01_scans.tsv" = true := by decide
example : isSessionLevel "/sub-01/ses-a/sub-01_ses-a_scans.tsv" = true := by decide
example : isSessionLevel "/sub-01/sub-01_acq-xT1w.json" = true := by decide
example : isFunc "/sub-01/func/sub-01_task-rest_bold.nii.gz" = true := by decide
example : isTopLevel "/participants.tsv" = true := by decide
example : isBIDS "/garbage" = false := by decide
example : isCont "/sub-01/beh/sub-01_task-x_physio.tsv.gz" = true := by decide

/-! ### Session-token consistency: an automaton for the pattern `ses-`

To show that a path accepted without a session directory cannot contain a
`_ses-<label>` filename token (and vice versa), we track occurrences of the
four-character pattern `ses-` with a small string-matching automaton:
state `q < 4` means the longest suffix of the input read so far that is a
prefix of `"ses-"` has length `q`; state `4` (absorbing) means `ses-` has
occurred. -/

/-- Transition function of the `ses-` matching automaton. -/
def sesDelta (q : Fin 5) (c : Char) : Fin 5 :=
  match q with
  | 0 => if c = 's' then 1 else 0
  | 1 => if c = 'e' then 2 else if c = 's' then 1 else 0
  | 2 => if c = 's' then 3 else 0
  | 3 => if c = '-' then 4 else if c = 's' then 1 else if c = 'e' then 2 else 0
  | 4 => 4

/-- Run the `ses-` automaton over a character list. -/
def runSes (q : Fin 5) (s : List Char) : Fin 5 := s.foldl sesDelta q

theorem runSes_append (q : Fin 5) (a b : List Char) :
    runSes q (a ++ b) = runSes (runSes q a) b := List.foldl_append ..

theorem runSes_cons (q : Fin 5) (c : Char) (s : List Char) :
    runSes q (c :: s) = runSes (sesDelta q c) s := rfl

theorem runSes_four (s : List Char) : runSes 4 s = 4 := by
  induction s with
  | nil => rfl
  | cons c cs ih => simpa [runSes_cons, sesDelta] using ih

theorem runSes_pat : ∀ q : Fin 5, runSes q "ses-".toList = 4 := by decide

theorem sesDelta_eq_four (q : Fin 5) (c : Char) :
    sesDelta q c = 4 ↔ q = 4 ∨ (q = 3 ∧ c = '-') := by
  fin_cases q
  · simp only [sesDelta]; split_ifs <;> simp_all
  · simp only [sesDelta]; split_ifs <;> simp_all
  · simp only [sesDelta]; split_ifs <;> simp_all
  · simp only [sesDelta]; split_ifs <;> simp_all
  · simp [sesDelta]

theorem sesDelta_ne_four (q : Fin 5) (c : Char) (h4 : q ≠ 4) (hc : c ≠ '-') :
    sesDelta q c ≠ 4 := by
  rw [Ne, sesDelta_eq_four]
  rintro (h | ⟨_, h⟩)
  · exact h4 h
  · exact hc h

theorem sesDelta_lt_three_ne_four (q : Fin 5) (c : Char) (h3 : q ≠ 3) (h4 : q ≠ 4) :
    sesDelta q c ≠ 4 := by
  rw [Ne, sesDelta_eq_four]
  rintro (h | ⟨h, _⟩)
  · exact h4 h
  · exact h3 h

/-- The function `dropPre` succeeds exactly on literal front parts. -/
theorem dropPre_sound : ∀ w s r : List Char, dropPre w s = some r → s = w ++ r := by
  intro w
  induction w with
  | nil => intro s r h; simpa [dropPre] using h
  | cons c cs ih =>
    intro s r h
    match s with
    | [] => simp [dropPre] at h
    | d :: ds =>
      simp only [dropPre] at h
      split at h
      · next heq => simpa [heq] using congrArg (d :: ·) (ih ds r h)
      · exact absurd h (by simp)

theorem dropPre_refl : ∀ w r : List Char, dropPre w (w ++ r) = some r := by
  intro w
  induction w with
  | nil => intro r; rfl
  | cons c cs ih => intro r; simp [dropPre, ih]

/-- The function `containsSeq` soundness: an occurrence yields a decomposition. -/
theorem containsSeq_sound (pat : List Char) :
    ∀ s, containsSeq pat s = true → ∃ a b, s = a ++ pat ++ b := by
  intro s
  induction s with
  | nil =>
    intro h
    simp only [containsSeq, Option.isSome] at h
    match hd : dropPre pat [] with
    | some r =>
      exact ⟨[], r, by simpa using dropPre_sound pat [] r hd⟩
    | none => rw [hd] at h; simp at h
  | cons c cs ih =>
    intro h
    simp only [containsSeq, Bool.or_eq_true] at h
    rcases h with h | h
    · match hd : dropPre pat (c :: cs) with
      | some r => exact ⟨[], r, by simpa using dropPre_sound pat (c :: cs) r hd⟩
      | none => rw [hd] at h; simp at h
    · obtain ⟨a, b, hab⟩ := ih h
      exact ⟨c :: a, b, by simp [hab]⟩

/-- The function `containsSeq` completeness: a decomposition yields an occurrence. -/
theorem containsSeq_complete (pat : List Char) :
    ∀ a b, containsSeq pat (a ++ pat ++ b) = true := by
  intro a
  induction a with
  | nil =>
    intro b
    show containsSeq pat (pat ++ b) = true
    cases pat with
    | nil =>
      cases b with
      | nil => rfl
      | cons d ds => simp [containsSeq, dropPre]
    | cons c cs => simp [containsSeq, dropPre, dropPre_refl]
  | cons c as ih =>
    intro b
    simp only [List.cons_append, containsSeq, Bool.or_eq_true]
    exact Or.inr (ih b)

/-- Containment of a longer pattern implies containment of its tail part. -/
theorem containsSeq_mono (pre pat : List Char) (s : List Char)
    (h : containsSeq (pre ++ pat) s = true) : containsSeq pat s = true := by
  obtain ⟨a, b, hab⟩ := containsSeq_sound _ s h
  subst hab
  have : a ++ (pre ++ pat) ++ b = (a ++ pre) ++ pat ++ b := by simp
  rw [this]
  exact containsSeq_complete pat (a ++ pre) b

/-- A string containing `ses-` drives the automaton into state 4. -/
theorem runSes_of_contains (s : List Char)
    (h : containsSeq "ses-".toList s = true) : runSes 0 s = 4 := by
  obtain ⟨a, b, hab⟩ := containsSeq_sound _ s h
  subst hab
  rw [runSes_append, runSes_append, runSes_pat, runSes_four]

theorem not_contains_of_runSes (s : List Char) (h : runSes 0 s ≠ 4) :
    containsSeq "ses-".toList s = false := by
  cases hc : containsSeq "ses-".toList s with
  | false => rfl
  | true => exact absurd (runSes_of_contains s hc) h

/-- The path has a directory segment starting with `ses-`: formalised as
containment of the five-character sequence `/ses-` (every directory
segment in a path follows a `/`). -/
def hasSesDirSeg (p : List Char) : Bool := containsSeq "/ses-".toList p

/-- The path has a `_ses-<label>` filename token: formalised as
containment of the five-character sequence `_ses-` (filename entities are
separated by `_`). -/
def hasSesFnTok (p : List Char) : Bool := containsSeq "_ses-".toList p

/-! ### Safety of the regex tails with respect to the `ses-` automaton -/

/-- A regex tail is *ses-safe* when, started from any live automaton
state, no string it accepts drives the `ses-` automaton into state 4. -/
def SafeTail (k : ReTail) : Prop :=
  ∀ q : Fin 5, q ≠ 4 → ∀ s, k s = true → runSes q s ≠ 4

/-- Side condition for a literal regex piece: from any live state it
never reaches state 4. -/
def LitOk (w : List Char) : Prop := ∀ q : Fin 5, q ≠ 4 → runSes q w ≠ 4

/-- Stronger side condition for a literal immediately followed by an
any-character dot: the exit state is live and not 3 (so the dot cannot
complete `ses-`). -/
def LitOk2 (w : List Char) : Prop :=
  ∀ q : Fin 5, q ≠ 4 → runSes q w ≠ 4 ∧ runSes q w ≠ 3

instance (w : List Char) : Decidable (LitOk w) := by unfold LitOk; infer_instance

instance (w : List Char) : Decidable (LitOk2 w) := by unfold LitOk2; infer_instance

theorem litC_sound (w : List Char) (k : ReTail) (s : List Char)
    (h : litC w k s = true) : ∃ r, s = w ++ r ∧ k r = true := by
  unfold litC at h
  cases hd : dropPre w s with
  | none => rw [hd] at h; exact absurd h (by simp)
  | some r => rw [hd] at h; exact ⟨r, dropPre_sound w s r hd, h⟩

theorem anyC_sound (k : ReTail) (s : List Char) (h : anyC k s = true) :
    ∃ c r, s = c :: r ∧ notLineTerm c = true ∧ k r = true := by
  cases s with
  | nil => exact absurd h (by simp [anyC])
  | cons c r =>
    simp only [anyC, Bool.and_eq_true] at h
    exact ⟨c, r, rfl, h.1, h.2⟩

theorem safe_eosC : SafeTail eosC := by
  intro q h4 s hs
  have hnil : s = [] := by
    cases s with
    | nil => rfl
    | cons c cs => exact absurd hs (by simp [eosC])
  subst hnil
  simpa [runSes] using h4

theorem safe_litC (w : List Char) (k : ReTail) (hw : LitOk w) (hk : SafeTail k) :
    SafeTail (litC w k) := by
  intro q h4 s hs
  obtain ⟨r, rfl, hr⟩ := litC_sound w k s hs
  rw [runSes_append]
  exact hk _ (hw q h4) r hr

theorem safe_litC_anyC (w : List Char) (k : ReTail) (hw : LitOk2 w)
    (hk : SafeTail k) : SafeTail (litC w (anyC k)) := by
  intro q h4 s hs
  obtain ⟨r, rfl, hr⟩ := litC_sound _ _ _ hs
  obtain ⟨c, r', rfl, _, hk'⟩ := anyC_sound k r hr
  rw [runSes_append, runSes_cons]
  exact hk _ (sesDelta_lt_three_ne_four _ c (hw q h4).2 (hw q h4).1) r' hk'

theorem isAlnumCh_ne_dash (c : Char) (h : isAlnumCh c = true) : c ≠ '-' := by
  intro he; subst he; exact absurd h (by decide)

theorem isDigitCh_ne_dash (c : Char) (h : isDigitCh c = true) : c ≠ '-' := by
  intro he; subst he; exact absurd h (by decide)

theorem safe_alnumRunBT (k : ReTail) (hk : SafeTail k) : SafeTail (alnumRunBT k) := by
  have main : ∀ s, ∀ q : Fin 5, q ≠ 4 → alnumRunBT k s = true → runSes q s ≠ 4 := by
    intro s
    induction s with
    | nil => intro q h4 h; exact absurd h (by simp [alnumRunBT])
    | cons c cs ih =>
      intro q h4 h
      simp only [alnumRunBT, Bool.and_eq_true, Bool.or_eq_true] at h
      have h4' : sesDelta q c ≠ 4 :=
        sesDelta_ne_four q c h4 (isAlnumCh_ne_dash c h.1)
      rw [runSes_cons]
      rcases h.2 with h | h
      · exact hk _ h4' cs h
      · exact ih _ h4' h
  intro q h4 s hs
  exact main s q h4 hs

theorem safe_digitRunBT (k : ReTail) (hk : SafeTail k) : SafeTail (digitRunBT k) := by
  have main : ∀ s, ∀ q : Fin 5, q ≠ 4 → digitRunBT k s = true → runSes q s ≠ 4 := by
    intro s
    induction s with
    | nil => intro q h4 h; exact absurd h (by simp [digitRunBT])
    | cons c cs ih =>
      intro q h4 h
      simp only [digitRunBT, Bool.and_eq_true, Bool.or_eq_true] at h
      have h4' : sesDelta q c ≠ 4 :=
        sesDelta_ne_four q c h4 (isDigitCh_ne_dash c h.1)
      rw [runSes_cons]
      rcases h.2 with h | h
      · exact hk _ h4' cs h
      · exact ih _ h4' h
  intro q h4 s hs
  exact main s q h4 hs

theorem safe_optTagA (pre : List Char) (k : ReTail) (hp : LitOk pre)
    (hk : SafeTail k) : SafeTail (optTagA pre k) := by
  intro q h4 s hs
  simp only [optTagA, Bool.or_eq_true] at hs
  rcases hs with hs | hs
  · exact safe_litC pre _ hp (safe_alnumRunBT k hk) q h4 s hs
  · exact hk q h4 s hs

theorem safe_optTagD (pre : List Char) (k : ReTail) (hp : LitOk pre)
    (hk : SafeTail k) : SafeTail (optTagD pre k) := by
  intro q h4 s hs
  simp only [optTagD, Bool.or_eq_true] at hs
  rcases hs with hs | hs
  · exact safe_litC pre _ hp (safe_digitRunBT k hk) q h4 s hs
  · exact hk q h4 s hs

theorem safe_optTagDU (pre : List Char) (k : ReTail) (hp : LitOk pre)
    (hk : SafeTail k) : SafeTail (optTagDU pre k) := by
  intro q h4 s hs
  simp only [optTagDU, Bool.or_eq_true] at hs
  rcases hs with hs | hs
  · exact safe_litC pre _ hp
      (safe_digitRunBT _ (safe_litC ['_'] k (by decide) hk)) q h4 s hs
  · exact hk q h4 s hs

theorem safe_optLitC (w : List Char) (k : ReTail) (hw : LitOk w)
    (hk : SafeTail k) : SafeTail (optLitC w k) := by
  intro q h4 s hs
  simp only [optLitC, Bool.or_eq_true] at hs
  rcases hs with hs | hs
  · exact safe_litC w k hw hk q h4 s hs
  · exact hk q h4 s hs

theorem safe_altsC (fs : List ReTail) (h : ∀ f ∈ fs, SafeTail f) :
    SafeTail (altsC fs) := by
  intro q h4 s hs
  simp only [altsC, List.any_eq_true] at hs
  obtain ⟨f, hf, hfs⟩ := hs
  exact h f hf q h4 s hfs

theorem safe_dotted2 (a b : String) (ha : LitOk2 a.toList) (hb : LitOk b.toList) :
    SafeTail (dotted2 a b) :=
  safe_litC_anyC _ _ ha (safe_litC _ _ hb safe_eosC)

theorem safe_dotted3 (a b c : String) (ha : LitOk2 a.toList) (hb : LitOk2 b.toList)
    (hc : LitOk c.toList) : SafeTail (dotted3 a b c) :=
  safe_litC_anyC _ _ ha (safe_litC_anyC _ _ hb (safe_litC _ _ hc safe_eosC))

theorem safe_sfxAlt (sfxs : List String) (ext : ReTail)
    (hs : ∀ w ∈ sfxs, LitOk2 w.toList) (he : SafeTail ext) :
    SafeTail (sfxAlt sfxs ext) := by
  apply safe_altsC
  intro f hf
  simp only [sfxAlt, List.mem_map] at hf
  obtain ⟨w, hw, rfl⟩ := hf
  exact safe_litC_anyC _ _ (hs w hw) he

theorem safe_extAltNiiJson : SafeTail extAltNiiJson := by
  apply safe_altsC
  intro f hf
  simp only [extAltNiiJson, List.mem_cons, List.not_mem_nil, or_false] at hf
  rcases hf with rfl | rfl | rfl
  · exact safe_litC_anyC _ _ (by decide) (safe_litC _ _ (by decide) safe_eosC)
  · exact safe_litC _ _ (by decide) safe_eosC
  · exact safe_litC _ _ (by decide) safe_eosC

theorem safe_extAltDwi : SafeTail extAltDwi := by
  apply safe_altsC
  intro f hf
  simp only [extAltDwi, List.mem_cons, List.not_mem_nil, or_false] at hf
  rcases hf with rfl | rfl | rfl | rfl | rfl
  · exact safe_litC_anyC _ _ (by decide) (safe_litC _ _ (by decide) safe_eosC)
  · exact safe_litC _ _ (by decide) safe_eosC
  · exact safe_litC _ _ (by decide) safe_eosC
  · exact safe_litC _ _ (by decide) safe_eosC
  · exact safe_litC _ _ (by decide) safe_eosC

theorem safe_anatRest : SafeTail anatRest := by
  unfold anatRest
  exact safe_optTagA _ _ (by decide) (safe_optTagA _ _ (by decide)
    (safe_optTagD _ _ (by decide) (safe_litC _ _ (by decide)
      (safe_sfxAlt _ _ (by decide) safe_extAltNiiJson))))

theorem safe_dwiRest : SafeTail dwiRest := by
  unfold dwiRest
  exact safe_optTagA _ _ (by decide) (safe_optTagA _ _ (by decide)
    (safe_optTagD _ _ (by decide) (safe_litC _ _ (by decide)
      (safe_sfxAlt _ _ (by decide) safe_extAltDwi))))

theorem safe_fmapRest : SafeTail fmapRest := by
  unfold fmapRest
  exact safe_optTagA _ _ (by decide) (safe_optTagA _ _ (by decide)
    (safe_optTagD _ _ (by decide) (safe_optTagD _ _ (by decide)
      (safe_litC _ _ (by decide)
        (safe_sfxAlt _ _ (by decide) safe_extAltNiiJson)))))

theorem safe_funcAlt : SafeTail funcAlt := by
  apply safe_altsC
  intro f hf
  simp only [funcAlt, List.mem_cons, List.not_mem_nil, or_false] at hf
  rcases hf with rfl | rfl | rfl | rfl | rfl | rfl | rfl | rfl | rfl | rfl
  · exact safe_dotted3 _ _ _ (by decide) (by decide) (by decide)
  · exact safe_dotted2 _ _ (by decide) (by decide)
  · exact safe_dotted2 _ _ (by decide) (by decide)
  · exact safe_dotted3 _ _ _ (by decide) (by decide) (by decide)
  · exact safe_dotted2 _ _ (by decide) (by decide)
  · exact safe_dotted2 _ _ (by decide) (by decide)
  · exact safe_dotted3 _ _ _ (by decide) (by decide) (by decide)
  · exact safe_dotted3 _ _ _ (by decide) (by decide) (by decide)
  · exact safe_dotted2 _ _ (by decide) (by decide)
  · exact safe_dotted2 _ _ (by decide) (by decide)

theorem safe_funcRest : SafeTail funcRest := by
  unfold funcRest
  exact safe_litC _ _ (by decide) (safe_alnumRunBT _ (safe_optTagA _ _ (by decide)
    (safe_optTagA _ _ (by decide) (safe_optTagD _ _ (by decide) safe_funcAlt))))

theorem safe_behAlt : SafeTail behAlt := by
  apply safe_altsC
  intro f hf
  simp only [behAlt, List.mem_cons, List.not_mem_nil, or_false] at hf
  rcases hf with rfl | rfl | rfl | rfl | rfl | rfl
  · exact safe_dotted2 _ _ (by decide) (by decide)
  · exact safe_dotted2 _ _ (by decide) (by decide)
  · exact safe_dotted3 _ _ _ (by decide) (by decide) (by decide)
  · exact safe_dotted3 _ _ _ (by decide) (by decide) (by decide)
  · exact safe_dotted2 _ _ (by decide) (by decide)
  · exact safe_dotted2 _ _ (by decide) (by decide)

theorem safe_behRest : SafeTail behRest := by
  unfold behRest
  exact safe_litC _ _ (by decide) (safe_alnumRunBT _ (safe_optTagA _ _ (by decide)
    (safe_optTagA _ _ (by decide) (safe_optTagD _ _ (by decide) safe_behAlt))))

theorem safe_contAlt : SafeTail contAlt := by
  apply safe_altsC
  intro f hf
  simp only [contAlt, List.mem_cons, List.not_mem_nil, or_false] at hf
  rcases hf with rfl | rfl | rfl | rfl
  · exact safe_dotted3 _ _ _ (by decide) (by decide) (by decide)
  · exact safe_dotted3 _ _ _ (by decide) (by decide) (by decide)
  · exact safe_dotted2 _ _ (by decide) (by decide)
  · exact safe_dotted2 _ _ (by decide) (by decide)

theorem safe_contRest : SafeTail contRest := by
  unfold contRest
  exact safe_litC _ _ (by decide) (safe_alnumRunBT _ (safe_optTagA _ _ (by decide)
    (safe_optTagA _ _ (by decide) (safe_optTagD _ _ (by decide)
      (safe_optTagA _ _ (by decide) safe_contAlt)))))

theorem safe_scansRest : SafeTail scansRest :=
  safe_dotted2 _ _ (by decide) (by decide)

theorem safe_funcSesAlt : SafeTail funcSesAlt := by
  apply safe_altsC
  intro f hf
  simp only [funcSesAlt, List.mem_cons, List.not_mem_nil, or_false] at hf
  rcases hf with rfl | rfl | rfl | rfl
  · exact safe_dotted2 _ _ (by decide) (by decide)
  · exact safe_dotted2 _ _ (by decide) (by decide)
  · exact safe_dotted2 _ _ (by decide) (by decide)
  · exact safe_dotted2 _ _ (by decide) (by decide)

theorem safe_funcSesRest : SafeTail funcSesRest := by
  unfold funcSesRest
  exact safe_litC _ _ (by decide) (safe_alnumRunBT _ (safe_optTagA _ _ (by decide)
    (safe_optTagA _ _ (by decide) (safe_optTagD _ _ (by decide) safe_funcSesAlt))))

theorem safe_anatSesRest : SafeTail anatSesRest := by
  unfold anatSesRest
  exact safe_optTagA _ _ (by decide) (safe_optTagA _ _ (by decide)
    (safe_optTagDU _ _ (by decide)
      (safe_sfxAlt _ _ (by decide) (safe_litC _ _ (by decide) safe_eosC))))

theorem safe_dwiSesRest : SafeTail dwiSesRest := by
  unfold dwiSesRest
  refine safe_optTagA _ _ (by decide) (safe_optTagA _ _ (by decide)
    (safe_optTagD _ _ (by decide) (safe_optLitC _ _ (by decide)
      (safe_litC_anyC _ _ (by decide) ?_))))
  apply safe_altsC
  intro f hf
  simp only [List.mem_cons, List.not_mem_nil, or_false] at hf
  rcases hf with rfl | rfl | rfl
  · exact safe_litC _ _ (by decide) safe_eosC
  · exact safe_litC _ _ (by decide) safe_eosC
  · exact safe_litC _ _ (by decide) safe_eosC

/-! ### Soundness of the skeleton matcher -/

theorem parseSeg_sound (pre s w r : List Char)
    (h : parseSeg pre s = some (w, r)) :
    ∃ lab, lab ≠ [] ∧ (∀ c ∈ lab, isAlnumCh c = true) ∧ w = pre ++ lab ∧
      s = pre ++ (lab ++ '/' :: r) := by
  cases hd : dropPre pre s with
  | none => simp [parseSeg, hd] at h
  | some s1 =>
    simp only [parseSeg, hd] at h
    have hs : s = pre ++ s1 := dropPre_sound _ _ _ hd
    by_cases hE : (s1.takeWhile isAlnumCh).isEmpty = true
    · rw [if_pos hE] at h; exact absurd h (by simp)
    · rw [if_neg hE] at h
      cases hdw : s1.dropWhile isAlnumCh with
      | nil => simp [hdw] at h
      | cons c r2 =>
        simp only [hdw] at h
        by_cases hc : c = '/'
        · rw [if_pos hc] at h
          have hwr := Option.some_inj.mp h
          have hw : w = pre ++ s1.takeWhile isAlnumCh :=
            (congrArg Prod.fst hwr).symm
          have hr : r2 = r := congrArg Prod.snd hwr
          have h5 : s1 = s1.takeWhile isAlnumCh ++ s1.dropWhile isAlnumCh :=
            (List.takeWhile_append_dropWhile isAlnumCh s1).symm
          rw [hdw, hc, hr] at h5
          refine ⟨s1.takeWhile isAlnumCh, ?_, ?_, hw, ?_⟩
          · intro hnil
            rw [hnil] at hE
            exact hE rfl
          · intro a ha
            exact List.mem_takeWhile_imp ha
          · rw [hs]
            exact congrArg (fun l => pre ++ l) h5
        · rw [if_neg hc] at h; exact absurd h (by simp)

theorem findSome?_dropPre_sound (s r : List Char) :
    ∀ (l : List (List Char)),
      l.findSome? (fun d => dropPre (d ++ ['/']) s) = some r →
      ∃ d ∈ l, s = (d ++ ['/']) ++ r := by
  intro l
  induction l with
  | nil => intro h; simp [List.findSome?] at h
  | cons d ds ih =>
    intro h
    rw [List.findSome?_cons] at h
    cases hd : dropPre (d ++ ['/']) s with
    | some r' =>
      rw [hd] at h
      have hr : r' = r := Option.some_inj.mp h
      exact ⟨d, List.mem_cons_self d ds, by rw [← hr]; exact dropPre_sound _ _ _ hd⟩
    | none =>
      rw [hd] at h
      obtain ⟨d', hd', hs⟩ := ih h
      exact ⟨d', List.mem_cons_of_mem d hd', hs⟩

theorem matchDirs_sound (dirs : List (List Char)) (s r : List Char)
    (h : matchDirs dirs s = some r) :
    (dirs = [] ∧ r = s) ∨ ∃ d ∈ dirs, s = (d ++ ['/']) ++ r := by
  cases dirs with
  | nil =>
    simp only [matchDirs] at h
    exact Or.inl ⟨rfl, (Option.some_inj.mp h).symm⟩
  | cons d ds =>
    simp only [matchDirs] at h
    exact Or.inr (findSome?_dropPre_sound s r (d :: ds) h)

theorem matchName_sound (sub : List Char) (g2 : Option (List Char)) (rest : ReTail)
    (s : List Char) (g : GroupMatch) (h : matchName sub g2 rest s = some g) :
    g.g2 = g2 ∧
      ((g.g3 = some ('_' :: g2.getD []) ∧
          ∃ t, s = sub ++ (('_' :: g2.getD []) ++ t) ∧ rest t = true) ∨
       (g.g3 = none ∧ ∃ t, s = sub ++ t ∧ rest t = true)) := by
  cases hd : dropPre sub s with
  | none => simp [matchName, hd] at h
  | some s1 =>
    simp only [matchName, hd] at h
    have hs : s = sub ++ s1 := dropPre_sound _ _ _ hd
    cases hd2 : dropPre ('_' :: g2.getD []) s1 with
    | some s2 =>
      simp only [hd2] at h
      have hs1 : s1 = ('_' :: g2.getD []) ++ s2 := dropPre_sound _ _ _ hd2
      by_cases hr2 : rest s2 = true
      · rw [if_pos hr2] at h
        rw [← Option.some_inj.mp h]
        exact ⟨rfl, Or.inl ⟨rfl, s2, by rw [hs, hs1], hr2⟩⟩
      · rw [if_neg hr2] at h
        by_cases hr1 : rest s1 = true
        · rw [if_pos hr1] at h
          rw [← Option.some_inj.mp h]
          exact ⟨rfl, Or.inr ⟨rfl, s1, hs, hr1⟩⟩
        · rw [if_neg hr1] at h; exact absurd h (by simp)
    | none =>
      simp only [hd2] at h
      by_cases hr1 : rest s1 = true
      · rw [if_pos hr1] at h
        rw [← Option.some_inj.mp h]
        exact ⟨rfl, Or.inr ⟨rfl, s1, hs, hr1⟩⟩
      · rw [if_neg hr1] at h; exact absurd h (by simp)

/-- What a successful `matchName` inside `matchEntity` gives us: the
directory part, the repeated subject name, the optional group-3 token,
and a `REST`-accepted tail. -/
def NameTail (dirs : List (List Char)) (rest : ReTail) (sub : List Char)
    (g2 : Option (List Char)) (g : GroupMatch) (s : List Char) : Prop :=
  ∃ dpart t,
    ((dirs = [] ∧ dpart = []) ∨ ∃ d ∈ dirs, dpart = d ++ ['/']) ∧
    s = dpart ++ (sub ++ t) ∧
    ((g.g3 = some ('_' :: g2.getD []) ∧
        ∃ u, t = ('_' :: g2.getD []) ++ u ∧ rest u = true) ∨
     (g.g3 = none ∧ rest t = true))

theorem nameTail_of_bind (dirs : List (List Char)) (rest : ReTail)
    (sub : List Char) (g2 : Option (List Char)) (g : GroupMatch) (s : List Char)
    (h : (matchDirs dirs s).bind (matchName sub g2 rest) = some g) :
    g.g2 = g2 ∧ NameTail dirs rest sub g2 g s := by
  rw [Option.bind_eq_some] at h
  obtain ⟨s', hdirs, hname⟩ := h
  obtain ⟨hg2, hcase⟩ := matchName_sound sub g2 rest s' g hname
  have hdcase := matchDirs_sound dirs s s' hdirs
  refine ⟨hg2, ?_⟩
  rcases hcase with ⟨hg3, t, hst, hu⟩ | ⟨hg3, t, hst, hu⟩
  · rcases hdcase with ⟨hnil, hrs⟩ | ⟨d, hd, hrs⟩
    · exact ⟨[], ('_' :: g2.getD []) ++ t, Or.inl ⟨hnil, rfl⟩,
        by rw [← hrs, hst]; simp, Or.inl ⟨hg3, t, rfl, hu⟩⟩
    · exact ⟨d ++ ['/'], ('_' :: g2.getD []) ++ t, Or.inr ⟨d, hd, rfl⟩,
        by rw [hrs, hst], Or.inl ⟨hg3, t, rfl, hu⟩⟩
  · rcases hdcase with ⟨hnil, hrs⟩ | ⟨d, hd, hrs⟩
    · exact ⟨[], t, Or.inl ⟨hnil, rfl⟩, by rw [← hrs, hst]; simp,
        Or.inr ⟨hg3, hu⟩⟩
    · exact ⟨d ++ ['/'], t, Or.inr ⟨d, hd, rfl⟩, by rw [hrs, hst],
        Or.inr ⟨hg3, hu⟩⟩

theorem matchEntity_sound (dirs : List (List Char)) (rest : ReTail)
    (p : List Char) (g : GroupMatch) (h : matchEntity dirs rest p = some g) :
    ∃ lab s1, (∀ c ∈ lab, isAlnumCh c = true) ∧ lab ≠ [] ∧
      p = '/' :: ("sub-".toList ++ (lab ++ '/' :: s1)) ∧
      ((∃ M s2, (∀ c ∈ M, isAlnumCh c = true) ∧ M ≠ [] ∧
          g.g2 = some ("ses-".toList ++ M) ∧
          s1 = "ses-".toList ++ (M ++ '/' :: s2) ∧
          NameTail dirs rest ("sub-".toList ++ lab) (some ("ses-".toList ++ M)) g s2) ∨
       (g.g2 = none ∧
          NameTail dirs rest ("sub-".toList ++ lab) none g s1)) := by
  cases p with
  | nil => simp [matchEntity] at h
  | cons c s =>
    simp only [matchEntity] at h
    by_cases hc : c = '/'
    · rw [if_pos hc] at h
      subst hc
      cases hps : parseSeg "sub-".toList s with
      | none => simp only [hps] at h; exact absurd h (by simp)
      | some x =>
        simp only [hps] at h
        obtain ⟨lab, hlabne, hlabal, hx1, hseq⟩ :=
          parseSeg_sound "sub-".toList s x.1 x.2 (by simpa using hps)
        cases hA : (parseSeg "ses-".toList x.2).bind (fun y =>
            (matchDirs dirs y.2).bind (matchName x.1 (some y.1) rest)) with
        | some g' =>
          simp only [hA] at h
          have hg : g' = g := Option.some_inj.mp h
          subst hg
          rw [Option.bind_eq_some] at hA
          obtain ⟨y, hy, hrest2⟩ := hA
          obtain ⟨M, hMne, hMal, hy1, hy2⟩ :=
            parseSeg_sound "ses-".toList x.2 y.1 y.2 (by simpa using hy)
          obtain ⟨hg2, hnt⟩ := nameTail_of_bind dirs rest x.1 (some y.1) g' y.2 hrest2
          refine ⟨lab, x.2, hlabal, hlabne, by rw [hseq], ?_⟩
          left
          refine ⟨M, y.2, hMal, hMne, ?_, hy2, ?_⟩
          · rw [hg2, hy1]
          · rw [← hx1]
            have hsame : (some y.1) = some ("ses-".toList ++ M) := by rw [hy1]
            rw [← hsame]
            exact hnt
        | none =>
          simp only [hA] at h
          obtain ⟨hg2, hnt⟩ := nameTail_of_bind dirs rest x.1 none g x.2 h
          refine ⟨lab, x.2, hlabal, hlabne, by rw [hseq], ?_⟩
          right
          exact ⟨hg2, by rw [← hx1]; exact hnt⟩
    · rw [if_neg hc] at h; exact absurd h (by simp)

/-! ### The session-consistency theorem -/

theorem runSes_sub_lit : ∀ q : Fin 5, q ≠ 4 → runSes q "sub-".toList = 0 := by decide

theorem sesDelta_slash : ∀ q : Fin 5, q ≠ 4 → sesDelta q '/' = 0 := by decide

theorem sesDelta_und : ∀ q : Fin 5, q ≠ 4 → sesDelta q '_' = 0 := by decide

theorem runSes_alnum_ne_four : ∀ (lab : List Char),
    (∀ c ∈ lab, isAlnumCh c = true) → ∀ q : Fin 5, q ≠ 4 → runSes q lab ≠ 4 := by
  intro lab
  induction lab with
  | nil => intro _ q h4; simpa [runSes] using h4
  | cons c cs ih =>
    intro hal q h4
    rw [runSes_cons]
    exact ih (fun a ha => hal a (List.mem_cons_of_mem c ha)) _
      (sesDelta_ne_four q c h4 (isAlnumCh_ne_dash c (hal c (List.mem_cons_self c cs))))

/-- Running the automaton over a whole no-session-group skeleton match
never reaches state 4: the structural pieces reset the state and the
`REST` tail is ses-safe. -/
theorem runSes_skeleton (lab lab2 dpart tok u : List Char) (rest : ReTail)
    (hlab : ∀ c ∈ lab, isAlnumCh c = true)
    (hlab2 : ∀ c ∈ lab2, isAlnumCh c = true)
    (hdp : runSes 0 dpart = 0)
    (htok : tok = [] ∨ tok = ['_'])
    (hrest : SafeTail rest) (hu : rest u = true) :
    runSes 0 ('/' :: ("sub-".toList ++ (lab ++ '/' ::
      (dpart ++ (("sub-".toList ++ lab2) ++ (tok ++ u)))))) ≠ 4 := by
  have h04 : (0 : Fin 5) ≠ 4 := by decide
  have hq1 : runSes 0 lab ≠ 4 := runSes_alnum_ne_four lab hlab 0 h04
  have hq2 : runSes 0 lab2 ≠ 4 := runSes_alnum_ne_four lab2 hlab2 0 h04
  have e1 : runSes 0 ('/' :: ("sub-".toList ++ (lab ++ '/' ::
      (dpart ++ (("sub-".toList ++ lab2) ++ (tok ++ u))))))
      = runSes (runSes (runSes 0 lab2) tok) u := by
    simp only [runSes_cons, runSes_append]
    rw [show sesDelta 0 '/' = 0 from by decide, runSes_sub_lit 0 h04,
      sesDelta_slash _ hq1, hdp, runSes_sub_lit 0 h04]
  rw [e1]
  rcases htok with rfl | rfl
  · rw [show runSes (runSes 0 lab2) [] = runSes 0 lab2 from rfl]
    exact hrest _ hq2 u hu
  · rw [show runSes (runSes 0 lab2) ['_'] = sesDelta (runSes 0 lab2) '_' from rfl,
      sesDelta_und _ hq2]
    exact hrest 0 h04 u hu

/-- The master lemma behind claim C1: for any of the conditional-match
grammar shapes (provided the `REST` tail is ses-safe and the directory
alternatives reset the automaton) an accepted path has a session
directory segment exactly when it has a `_ses-` filename token. -/
theorem cm_sesConsistent (dirs : List (List Char)) (rest : ReTail)
    (hrest : SafeTail rest) (hdirs : ∀ d ∈ dirs, runSes 0 (d ++ ['/']) = 0)
    (p : List Char)
    (hp : conditionalMatch (matchEntity dirs rest p) = true) :
    hasSesDirSeg p = hasSesFnTok p := by
  cases hm : matchEntity dirs rest p with
  | none => rw [hm] at hp; simp [conditionalMatch] at hp
  | some g =>
    rw [hm] at hp
    have hp' : (g.g2.isSome = true ∧ g.g3.isSome = true) ∨ g.g2 = none := by
      simp only [conditionalMatch, Bool.or_eq_true, Bool.and_eq_true] at hp
      rcases hp with h | h
      · exact Or.inl h
      · exact Or.inr (Option.isNone_iff_eq_none.mp h)
    obtain ⟨lab, s1, hlabal, hlabne, hps, hcase⟩ := matchEntity_sound dirs rest p g hm
    rcases hcase with ⟨M, s2, hMal, hMne, hg2, hs1, hnt⟩ | ⟨hg2, hnt⟩
    · obtain ⟨dpart, t, hdpc, hs2, hg3c⟩ := hnt
      rcases hg3c with ⟨hg3, u, htu, hu⟩ | ⟨hg3, _⟩
      · have hdir : hasSesDirSeg p = true := by
          unfold hasSesDirSeg
          have hdecomp : p = (('/' :: ("sub-".toList ++ lab)) ++
              ('/' :: "ses-".toList)) ++ (M ++ '/' :: s2) := by
            rw [hps, hs1]; simp
          rw [show ("/ses-".toList : List Char) = '/' :: "ses-".toList from rfl,
            hdecomp]
          exact containsSeq_complete _ _ _
        have htokk : hasSesFnTok p = true := by
          unfold hasSesFnTok
          have hdecomp : p = (('/' :: ("sub-".toList ++ (lab ++ '/' ::
              ("ses-".toList ++ (M ++ '/' :: (dpart ++ ("sub-".toList ++ lab))))))) ++
              ('_' :: "ses-".toList)) ++ (M ++ u) := by
            rw [hps, hs1, hs2, htu]; simp
          rw [show ("_ses-".toList : List Char) = '_' :: "ses-".toList from rfl,
            hdecomp]
          exact containsSeq_complete _ _ _
        rw [hdir, htokk]
      · exfalso
        rcases hp' with ⟨_, h3⟩ | h2
        · rw [hg3] at h3; simp at h3
        · rw [hg2] at h2; simp at h2
    · obtain ⟨dpart, t, hdpc, hs1eq, hg3c⟩ := hnt
      have hdp0 : runSes 0 dpart = 0 := by
        rcases hdpc with ⟨_, rfl⟩ | ⟨d, hd, rfl⟩
        · rfl
        · exact hdirs d hd
      have hne4 : runSes 0 p ≠ 4 := by
        rcases hg3c with ⟨hg3, u, htu, hu⟩ | ⟨hg3, hu⟩
        · have hmain := runSes_skeleton lab lab dpart ['_'] u rest hlabal hlabal
            hdp0 (Or.inr rfl) hrest hu
          have hshape : p = '/' :: ("sub-".toList ++ (lab ++ '/' ::
              (dpart ++ (("sub-".toList ++ lab) ++ (['_'] ++ u))))) := by
            rw [hps, hs1eq, htu]; simp
          rw [hshape]; exact hmain
        · have hmain := runSes_skeleton lab lab dpart [] t rest hlabal hlabal
            hdp0 (Or.inl rfl) hrest hu
          have hshape : p = '/' :: ("sub-".toList ++ (lab ++ '/' ::
              (dpart ++ (("sub-".toList ++ lab) ++ ([] ++ t))))) := by
            rw [hps, hs1eq]; simp
          rw [hshape]; exact hmain
      have hses := not_contains_of_runSes p hne4
      have hdir : hasSesDirSeg p = false := by
        unfold hasSesDirSeg
        cases hb : containsSeq "/ses-".toList p with
        | false => rfl
        | true =>
          exfalso
          have hc : containsSeq "ses-".toList p = true := by
            rw [show ("/ses-".toList : List Char) = ['/'] ++ "ses-".toList from rfl] at hb
            exact containsSeq_mono ['/'] _ p hb
          rw [hc] at hses; exact Bool.noConfusion hses
      have htokk : hasSesFnTok p = false := by
        unfold hasSesFnTok
        cases hb : containsSeq "_ses-".toList p with
        | false => rfl
        | true =>
          exfalso
          have hc : containsSeq "ses-".toList p = true := by
            rw [show ("_ses-".toList : List Char) = ['_'] ++ "ses-".toList from rfl] at hb
            exact containsSeq_mono ['_'] _ p hb
          rw [hc] at hses; exact Bool.noConfusion hses
      rw [hdir, htokk]

theorem isAnat_sesConsistent (p : String) (h : isAnat p = true) :
    hasSesDirSeg p.toList = hasSesFnTok p.toList :=
  cm_sesConsistent _ _ safe_anatRest (by decide) p.toList h

theorem isDWI_sesConsistent (p : String) (h : isDWI p = true) :
    hasSesDirSeg p.toList = hasSesFnTok p.toList :=
  cm_sesConsistent _ _ safe_dwiRest (by decide) p.toList h

theorem isFunc_sesConsistent (p : String) (h : isFunc p = true) :
    hasSesDirSeg p.toList = hasSesFnTok p.toList :=
  cm_sesConsistent _ _ safe_funcRest (by decide) p.toList h

theorem isBehavioral_sesConsistent (p : String) (h : isBehavioral p = true) :
    hasSesDirSeg p.toList = hasSesFnTok p.toList :=
  cm_sesConsistent _ _ safe_behRest (by decide) p.toList h

theorem isCont_sesConsistent (p : String) (h : isCont p = true) :
    hasSesDirSeg p.toList = hasSesFnTok p.toList :=
  cm_sesConsistent _ _ safe_contRest (by decide) p.toList h

theorem isFieldMap_sesConsistent (p : String) (h : isFieldMap p = true) :
    hasSesDirSeg p.toList = hasSesFnTok p.toList :=
  cm_sesConsistent _ _ safe_fmapRest (by decide) p.toList h

theorem isSessionLevel_sesConsistent (p : String) (h : isSessionLevel p = true) :
    hasSesDirSeg p.toList = hasSesFnTok p.toList := by
  unfold isSessionLevel at h
  simp only [Bool.or_eq_true] at h
  have hnil : ∀ d ∈ ([] : List (List Char)), runSes 0 (d ++ ['/']) = 0 := by
    intro d hd; exact absurd hd (List.not_mem_nil d)
  rcases h with ((h | h) | h) | h
  · exact cm_sesConsistent _ _ safe_scansRest hnil p.toList h
  · exact cm_sesConsistent _ _ safe_funcSesRest hnil p.toList h
  · exact cm_sesConsistent _ _ safe_anatSesRest hnil p.toList h
  · exact cm_sesConsistent _ _ safe_dwiSesRest hnil p.toList h

theorem ses_reject (b X Y : Bool) (h : b = true → X = Y)
    (hX : X = true) (hY : Y = false) : b = false := by
  cases hb : b
  · rfl
  · rw [h hb, hY] at hX; exact Bool.noConfusion hX

/-- Claim C1. Session consistency of the path grammar: for every path and
every subject-data grammar predicate (`isAnat`, `isDWI`, `isFunc`,
`isBehavioral`, `isCont`, `isFieldMap`, and the session-level
predicates), a path with a session directory segment (an occurrence of
`/ses-`) but no `_ses-<label>` filename token (an occurrence of `_ses-`)
is rejected by every such predicate, and symmetrically a path with a
`_ses-` filename token but no session directory segment is rejected. -/
theorem c1_session_consistency (p : String) :
    (hasSesDirSeg p.toList = true → hasSesFnTok p.toList = false →
      isAnat p = false ∧ isDWI p = false ∧ isFunc p = false ∧
      isBehavioral p = false ∧ isCont p = false ∧ isFieldMap p = false ∧
      isSessionLevel p = false) ∧
    (hasSesFnTok p.toList = true → hasSesDirSeg p.toList = false →
      isAnat p = false ∧ isDWI p = false ∧ isFunc p = false ∧
      isBehavioral p = false ∧ isCont p = false ∧ isFieldMap p = false ∧
      isSessionLevel p = false) := by
  constructor
  · intro hX hY
    exact ⟨ses_reject _ _ _ (isAnat_sesConsistent p) hX hY,
      ses_reject _ _ _ (isDWI_sesConsistent p) hX hY,
      ses_reject _ _ _ (isFunc_sesConsistent p) hX hY,
      ses_reject _ _ _ (isBehavioral_sesConsistent p) hX hY,
      ses_reject _ _ _ (isCont_sesConsistent p) hX hY,
      ses_reject _ _ _ (isFieldMap_sesConsistent p) hX hY,
      ses_reject _ _ _ (isSessionLevel_sesConsistent p) hX hY⟩
  · intro hX hY
    exact ⟨ses_reject _ _ _ (fun h => (isAnat_sesConsistent p h).symm) hX hY,
      ses_reject _ _ _ (fun h => (isDWI_sesConsistent p h).symm) hX hY,
      ses_reject _ _ _ (fun h => (isFunc_sesConsistent p h).symm) hX hY,
      ses_reject _ _ _ (fun h => (isBehavioral_sesConsistent p h).symm) hX hY,
      ses_reject _ _ _ (fun h => (isCont_sesConsistent p h).symm) hX hY,
      ses_reject _ _ _ (fun h => (isFieldMap_sesConsistent p h).symm) hX hY,
      ses_reject _ _ _ (fun h => (isSessionLevel_sesConsistent p h).symm) hX hY⟩

/-- Witness for C1 at a concrete input: a path with a session directory
but no filename token is rejected by every grammar predicate. -/
theorem c1_session_consistency_witness :
    hasSesDirSeg "/sub-01/ses-01/anat/sub-01_T1w.nii.gz".toList = true ∧
    hasSesFnTok "/sub-01/ses-01/anat/sub-01_T1w.nii.gz".toList = false ∧
    isAnat "/sub-01/ses-01/anat/sub-01_T1w.nii.gz" = false ∧
    isSessionLevel "/sub-01/ses-01/anat/sub-01_T1w.nii.gz" = false :=
  ⟨by decide, by decide,
   ((c1_session_consistency "/sub-01/ses-01/anat/sub-01_T1w.nii.gz").1
     (by decide) (by decide)).1,
   ((c1_session_consistency "/sub-01/ses-01/anat/sub-01_T1w.nii.gz").1
     (by decide) (by decide)).2.2.2.2.2.2⟩

/-! ### `groupModalities` (validator module, lines 300–339) -/

/-- The function `modalityGroups` (lines 302–319): the ordered (subset, replacement)
rules. -/
def modalityGroups : List (List String × String) :=
  [(["magnitude1", "magnitude2", "phase1", "phase2"], "fieldmap"),
   (["magnitude1", "magnitude2", "phasediff"], "fieldmap"),
   (["magnitude", "fieldmap"], "fieldmap"),
   (["epi"], "fieldmap")]

/-- The per-rule match test (lines 324–329): every member of the rule's
subset is present (`indexOf !== -1`). -/
def groupMatches (gset : List String) (mods : List String) : Bool :=
  gset.all (fun m => mods.contains m)

/-- One rule application (lines 330–335): if the rule matches, `push` the
group name onto the working array and `splice` out the first occurrence of
each consumed member, in order.  (`splice(indexOf x, 1)` on a present
element is exactly `List.erase`; every member is present and distinct when
it is removed, so the `indexOf = -1` edge of `splice` is never reached.) -/
def applyGroup (mods : List String) (rule : List String × String) : List String :=
  if groupMatches rule.1 mods then
    rule.1.foldl (fun acc g => acc.erase g) (mods ++ [rule.2])
  else mods

/-- The function `groupModalities` (lines 300–339): fold the ordered rules over the
working modality list. -/
def groupModalities (modalities : List String) : List String :=
  modalityGroups.foldl applyGroup modalities

/-- Claim C3. `groupModalities` on the concrete test inputs:
`{magnitude1, magnitude2, phasediff}` collapses to `{fieldmap}`;
`{epi}` collapses to `{fieldmap}`; `{bold}` is unchanged because no rule
matches. -/
theorem c3_group_concrete :
    groupModalities ["magnitude1", "magnitude2", "phasediff"] = ["fieldmap"] ∧
    groupModalities ["epi"] = ["fieldmap"] ∧
    groupModalities ["bold"] = ["bold"] := by decide

theorem erase_foldl_sublist (gs : List String) :
    ∀ l : List String, (gs.foldl (fun acc g => acc.erase g) l).Sublist l := by
  induction gs with
  | nil => intro l; exact List.Sublist.refl l
  | cons g gs ih =>
    intro l
    exact (ih (l.erase g)).trans (List.erase_sublist g l)

/-- Claim C2. `groupModalities` evaluates its rules in order against the
already-mutated working set: on a duplicate-free input on which rule 1
(`{magnitude1, magnitude2, phase1, phase2}`) fires, rule 2
(`{magnitude1, magnitude2, phasediff}`) can no longer match the mutated
set, because rule 1 consumed the magnitudes; and on the concrete input
`{magnitude1, magnitude2, phase1, phase2, phasediff}` rule 1 fires,
rule 2 does not, leaving `[phasediff, fieldmap]`. -/
theorem c2_sequential_rules :
    (∀ ms : List String, ms.Nodup →
      groupMatches ["magnitude1", "magnitude2", "phase1", "phase2"] ms = true →
      groupMatches ["magnitude1", "magnitude2", "phasediff"]
        (applyGroup ms (["magnitude1", "magnitude2", "phase1", "phase2"],
          "fieldmap")) = false) ∧
    groupModalities ["magnitude1", "magnitude2", "phase1", "phase2", "phasediff"] =
      ["phasediff", "fieldmap"] := by
  constructor
  · intro ms hnd hfire
    have hmem : "magnitude1" ∈ ms := by
      have := List.all_eq_true.mp hfire "magnitude1" (by simp)
      simpa using this
    have hcnt : ms.count "magnitude1" = 1 :=
      le_antisymm (List.nodup_iff_count_le_one.mp hnd _)
        (List.count_pos_iff.mpr hmem)
    have hres : applyGroup ms (["magnitude1", "magnitude2", "phase1", "phase2"],
        "fieldmap") =
        ((((ms ++ ["fieldmap"]).erase "magnitude1").erase "magnitude2").erase
          "phase1").erase "phase2" := by
      unfold applyGroup
      rw [if_pos hfire]
      rfl
    have hnotmem : "magnitude1" ∉ applyGroup ms
        (["magnitude1", "magnitude2", "phase1", "phase2"], "fieldmap") := by
      rw [hres]
      intro hmem2
      have hsub : ((((ms ++ ["fieldmap"]).erase "magnitude1").erase
          "magnitude2").erase "phase1").erase "phase2" |>.Sublist
          ((ms ++ ["fieldmap"]).erase "magnitude1") :=
        ((List.erase_sublist _ _).trans (List.erase_sublist _ _)).trans
          (List.erase_sublist _ _)
      have hmem3 : "magnitude1" ∈ (ms ++ ["fieldmap"]).erase "magnitude1" :=
        hsub.subset hmem2
      have hc0 : ((ms ++ ["fieldmap"]).erase "magnitude1").count "magnitude1" = 0 := by
        rw [List.count_erase_self, List.count_append]
        simp [hcnt]
      rw [List.count_eq_zero] at hc0
      exact hc0 hmem3
    cases hb : groupMatches ["magnitude1", "magnitude2", "phasediff"]
        (applyGroup ms (["magnitude1", "magnitude2", "phase1", "phase2"], "fieldmap")) with
    | false => rfl
    | true =>
      exfalso
      unfold groupMatches at hb
      have hmem4 : "magnitude1" ∈ applyGroup ms
          (["magnitude1", "magnitude2", "phase1", "phase2"], "fieldmap") := by
        have h := List.all_eq_true.mp hb "magnitude1" (by simp)
        simpa using h
      exact hnotmem hmem4
  · decide

/-- Witness for C2 at the concrete input of the claim. -/
theorem c2_sequential_rules_witness :
    groupMatches ["magnitude1", "magnitude2", "phasediff"]
      (applyGroup ["magnitude1", "magnitude2", "phase1", "phase2", "phasediff"]
        (["magnitude1", "magnitude2", "phase1", "phase2"], "fieldmap")) = false :=
  c2_sequential_rules.1 ["magnitude1", "magnitude2", "phase1", "phase2", "phasediff"]
    (by decide) (by decide)

/-- Claim C9 (counterexample). The claim "the list returned by
`groupModalities` contains each label at most once for every input list of
distinct tokens" is false: on the duplicate-free input
`["epi", "fieldmap"]` rule 4 fires, pushing a second `"fieldmap"` and
consuming only `"epi"`, so the output contains `"fieldmap"` twice. -/
theorem c9_counterexample :
    (["epi", "fieldmap"] : List String).Nodup ∧
    groupModalities ["epi", "fieldmap"] = ["fieldmap", "fieldmap"] ∧
    (groupModalities ["epi", "fieldmap"]).count "fieldmap" = 2 ∧
    ¬ (groupModalities ["epi", "fieldmap"]).Nodup := by decide

/-- Claim C9 (amended). For every duplicate-free input, every label other
than the derived `"fieldmap"` occurs at most once in the output of
`groupModalities`; `"fieldmap"` itself may occur twice (see the
counterexample), since the rules only ever push `"fieldmap"` and only
remove consumed subset members. -/
theorem c9_amended (ms : List String) (hnd : ms.Nodup) (l : String)
    (hl : l ≠ "fieldmap") : (groupModalities ms).count l ≤ 1 := by
  have step : ∀ (mods : List String) (rule : List String × String),
      rule.2 = "fieldmap" → (applyGroup mods rule).count l ≤ mods.count l := by
    intro mods rule hr
    unfold applyGroup
    split
    · have hbase : (mods ++ [rule.2]).count l = mods.count l := by
        rw [List.count_append, hr]
        simp [hl]
      calc (rule.1.foldl (fun acc g => acc.erase g) (mods ++ [rule.2])).count l
          ≤ (mods ++ [rule.2]).count l :=
            (erase_foldl_sublist rule.1 (mods ++ [rule.2])).count_le l
        _ = mods.count l := hbase
    · exact le_refl _
  have chain : ∀ (rules : List (List String × String)) (mods : List String),
      (∀ r ∈ rules, r.2 = "fieldmap") →
      (rules.foldl applyGroup mods).count l ≤ mods.count l := by
    intro rules
    induction rules with
    | nil => intro mods _; exact le_refl _
    | cons r rs ih =>
      intro mods hall
      calc (List.foldl applyGroup (applyGroup mods r) rs).count l
          ≤ (applyGroup mods r).count l :=
            ih _ (fun r' hr' => hall r' (List.mem_cons_of_mem r hr'))
        _ ≤ mods.count l := step mods r (hall r (List.mem_cons_self r rs))
  calc (groupModalities ms).count l ≤ ms.count l :=
        chain modalityGroups ms (by decide)
    _ ≤ 1 := List.nodup_iff_count_le_one.mp hnd l

/-- Witness for the amended C9 at a concrete input. -/
theorem c9_amended_witness :
    (groupModalities ["epi", "fieldmap"]).count "epi" ≤ 1 :=
  c9_amended ["epi", "fieldmap"] (by decide) "epi" (by decide)

/-! ### `formatIssues` (validator module, lines 260–290)

External collaborators are parameters: the static issue-metadata table
(`utils.issues`) is `sevOf : Nat → String` (code → severity).  Issue codes
are numbers in the source; `for (var key in categorized)` iterates the
integer-like keys of a JS object in ascending numeric order, so the code
groups are produced in ascending code order.  `Array.prototype.sort` with
the comparator of line 279 is a stable sort ascending by
`file.relativePath` (JS `>` on strings is code-unit lexicographic). -/

/-- An issue as appended by the validator: numeric code, the file's
relative path (the sort key of line 279), and the evidence text. -/
structure RawIssue where
  code : Nat
  relativePath : String
  evidence : String
deriving DecidableEq

/-- A code group of the aggregated output: the metadata severity from the
static table, and the collected per-file issues. -/
structure IssueGroup where
  code : Nat
  severity : String
  files : List RawIssue
deriving DecidableEq

/-- The aggregated output of `formatIssues`. -/
structure FormattedIssues where
  errors : List IssueGroup
  warnings : List IssueGroup
deriving DecidableEq

/-- JS string comparison `a > b` on `relativePath` (code-unit
lexicographic `<` over the characters; astral-plane code-unit pairs are
out of scope for these ASCII paths). -/
def strLtCh : List Char → List Char → Bool
  | [], [] => false
  | [], _ :: _ => true
  | _ :: _, [] => false
  | a :: as, b :: bs => if a < b then true else if b < a then false else strLtCh as bs

/-- The sort relation of the comparator on line 279: `a` is not after `b`
(ascending by relative path, ties left in place — the comparator returns
`0`). -/
def fileLe (a b : RawIssue) : Prop :=
  strLtCh b.relativePath.toList a.relativePath.toList = false

instance : DecidableRel fileLe := fun a b => by unfold fileLe; infer_instance

theorem strLtCh_asymm : ∀ a b, strLtCh a b = true → strLtCh b a = false := by
  intro a
  induction a with
  | nil =>
    intro b h
    cases b with
    | nil => exact absurd h (by simp [strLtCh])
    | cons c cs => rfl
  | cons x as ih =>
    intro b h
    cases b with
    | nil => exact absurd h (by simp [strLtCh])
    | cons y bs =>
      simp only [strLtCh] at h ⊢
      by_cases hxy : x < y
      · rw [if_neg (asymm hxy), if_pos hxy]
      · rw [if_neg hxy] at h
        by_cases hyx : y < x
        · rw [if_pos hyx] at h; exact absurd h (by simp)
        · rw [if_neg hyx, if_neg hxy]
          rw [if_neg hyx] at h
          exact ih bs h

theorem strLtCh_conn : ∀ a b, strLtCh a b = false → strLtCh b a = false → a = b := by
  intro a
  induction a with
  | nil =>
    intro b h _
    cases b with
    | nil => rfl
    | cons c cs => exact absurd h (by simp [strLtCh])
  | cons x as ih =>
    intro b h h'
    cases b with
    | nil => exact absurd h' (by simp [strLtCh])
    | cons y bs =>
      simp only [strLtCh] at h h'
      by_cases hxy : x < y
      · rw [if_pos hxy] at h; exact absurd h (by simp)
      · by_cases hyx : y < x
        · rw [if_pos hyx] at h'; exact absurd h' (by simp)
        · rw [if_neg hxy, if_neg hyx] at h
          rw [if_neg hyx, if_neg hxy] at h'
          have hx : x = y := le_antisymm (le_of_not_lt hyx) (le_of_not_lt hxy)
          rw [hx, ih bs h h']

theorem strLtCh_trans : ∀ a b c, strLtCh a b = true → strLtCh b c = true →
    strLtCh a c = true := by
  intro a
  induction a with
  | nil =>
    intro b c hab hbc
    cases b with
    | nil => exact absurd hab (by simp [strLtCh])
    | cons y bs =>
      cases c with
      | nil => exact absurd hbc (by simp [strLtCh])
      | cons z cs => simp [strLtCh]
  | cons x as ih =>
    intro b c hab hbc
    cases b with
    | nil => exact absurd hab (by simp [strLtCh])
    | cons y bs =>
      cases c with
      | nil => exact absurd hbc (by simp [strLtCh])
      | cons z cs =>
        simp only [strLtCh] at hab hbc ⊢
        by_cases hxy : x < y
        · by_cases hyz : y < z
          · rw [if_pos (lt_trans hxy hyz)]
          · by_cases hzy : z < y
            · rw [if_neg hyz, if_pos hzy] at hbc; exact absurd hbc (by simp)
            · have : y = z := le_antisymm (le_of_not_lt hzy) (le_of_not_lt hyz)
              rw [← this, if_pos hxy]
        · by_cases hyx : y < x
          · rw [if_neg hxy, if_pos hyx] at hab; exact absurd hab (by simp)
          · have hxy' : x = y := le_antisymm (le_of_not_lt hyx) (le_of_not_lt hxy)
            rw [if_neg hxy, if_neg hyx] at hab
            by_cases hyz : y < z
            · rw [hxy', if_pos hyz]
            · by_cases hzy : z < y
              · rw [if_neg hyz, if_pos hzy] at hbc; exact absurd hbc (by simp)
              · rw [if_neg hyz, if_neg hzy] at hbc
                rw [hxy']
                rw [if_neg hyz, if_neg hzy]
                exact ih bs cs hab hbc

instance : IsTotal RawIssue fileLe := by
  constructor
  intro a b
  unfold fileLe
  cases hb : strLtCh b.relativePath.toList a.relativePath.toList with
  | false => exact Or.inl rfl
  | true => exact Or.inr (strLtCh_asymm _ _ hb)

instance : IsTrans RawIssue fileLe := by
  constructor
  intro a b c hab hbc
  unfold fileLe at hab hbc ⊢
  cases hca : strLtCh c.relativePath.toList a.relativePath.toList with
  | false => rfl
  | true =>
    exfalso
    by_cases hba : strLtCh b.relativePath.toList a.relativePath.toList = true
    · rw [hba] at hab; exact Bool.noConfusion hab
    · by_cases hab' : strLtCh a.relativePath.toList b.relativePath.toList = true
      · have := strLtCh_trans _ _ _ hca hab'
        rw [this] at hbc; exact Bool.noConfusion hbc
      · have heq := strLtCh_conn _ _ (Bool.not_eq_true _ ▸ hab')
          (Bool.not_eq_true _ ▸ hba)
        rw [heq] at hca
        rw [hca] at hbc
        exact Bool.noConfusion hbc

/-- The function `formatIssues` (lines 260–290): group by code (ascending code order),
attach the static severity, sort each group's files by relative path with
the stable comparator, split by severity; a group enters `warnings` only
when `!options.ignoreWarnings`. -/
def issueGroupsOf (sevOf : Nat → String) (issues : List RawIssue) :
    List IssueGroup :=
  (List.insertionSort (· ≤ ·) (issues.map RawIssue.code).dedup).map (fun c =>
    ⟨c, sevOf c, List.insertionSort fileLe (issues.filter (fun i => i.code = c))⟩)

def formatIssues (sevOf : Nat → String) (ignoreWarnings : Bool)
    (issues : List RawIssue) : FormattedIssues :=
  ⟨(issueGroupsOf sevOf issues).filter (fun g => g.severity == "error"),
   (issueGroupsOf sevOf issues).filter
     (fun g => g.severity == "warning" && !ignoreWarnings)⟩

/-! ### The fieldmap warning filter and the finalisation step of `fullTest` -/

/-- The function `fieldmapRelatedCodes` (line 244).  In the source the codes are the
string keys `"6".."9"` compared against the group's string `code`; numeric
codes are used uniformly here. -/
def fieldmapRelatedCodes : List Nat := [6, 7, 8, 9]

/-- The context filter of `fullTest` (lines 240–251): if the
post-grouping modality summary has no `"fieldmap"`, keep only warnings
whose code is outside the fieldmap-related set; the errors list is never
touched. -/
def filterFieldmapWarnings (modalities : List String)
    (issues : FormattedIssues) : FormattedIssues :=
  if modalities.contains "fieldmap" then issues
  else ⟨issues.errors,
        issues.warnings.filter (fun w => !(fieldmapRelatedCodes.contains w.code))⟩

/-- The tail of `fullTest` (lines 239–252): format the issues, rewrite the
modality summary with `groupModalities`, then apply the fieldmap filter.
Returns the filtered issues and the post-grouping modalities. -/
def finalizeIssues (sevOf : Nat → String) (ignoreWarnings : Bool)
    (issueList : List RawIssue) (preModalities : List String) :
    FormattedIssues × List String :=
  (filterFieldmapWarnings (groupModalities preModalities)
     (formatIssues sevOf ignoreWarnings issueList),
   groupModalities preModalities)

/-- Claim C4. Fieldmap warning suppression: after modality grouping and
after the severity split, if the post-grouping modality list does not
contain `"fieldmap"`, every warning whose code is in `{6,7,8,9}` is
removed (and every other warning retained); if `"fieldmap"` is present the
warnings are untouched; the filter never removes anything from the errors
list. -/
theorem c4_fieldmap_filter (sevOf : Nat → String) (ig : Bool)
    (issueList : List RawIssue) (preModalities : List String) :
    ("fieldmap" ∉ groupModalities preModalities →
      (∀ w ∈ (finalizeIssues sevOf ig issueList preModalities).1.warnings,
        w.code ∉ fieldmapRelatedCodes) ∧
      (∀ w ∈ (formatIssues sevOf ig issueList).warnings,
        w.code ∉ fieldmapRelatedCodes →
        w ∈ (finalizeIssues sevOf ig issueList preModalities).1.warnings)) ∧
    ("fieldmap" ∈ groupModalities preModalities →
      (finalizeIssues sevOf ig issueList preModalities).1.warnings =
        (formatIssues sevOf ig issueList).warnings) ∧
    (finalizeIssues sevOf ig issueList preModalities).1.errors =
      (formatIssues sevOf ig issueList).errors := by
  unfold finalizeIssues filterFieldmapWarnings
  by_cases hm : (groupModalities preModalities).contains "fieldmap" = true
  · rw [if_pos hm]
    refine ⟨fun hnm => absurd (by simpa using hm) hnm, fun _ => rfl, rfl⟩
  · rw [if_neg hm]
    refine ⟨fun _ => ⟨?_, ?_⟩, fun hmem => absurd (by simpa using hmem) hm, rfl⟩
    · intro w hw
      have := (List.mem_filter.mp hw).2
      simpa using this
    · intro w hw hcode
      exact List.mem_filter.mpr ⟨hw, by simpa using hcode⟩

/-- Witness for C4: a code-6 warning is dropped when the grouped
modalities lack `"fieldmap"`. -/
theorem c4_fieldmap_filter_witness :
    ∀ w ∈ (finalizeIssues (fun c => if c = 6 then "warning" else "error") false
      [⟨6, "/x", "e"⟩] ["bold"]).1.warnings,
      w.code ∉ fieldmapRelatedCodes :=
  ((c4_fieldmap_filter (fun c => if c = 6 then "warning" else "error") false
    [⟨6, "/x", "e"⟩] ["bold"]).1 (by decide)).1

/-- Claim C6. If `ignoreWarnings` is set, the output warnings list is empty
whatever the issues are, while the errors list and the post-grouping
modality summary are exactly what they are with `ignoreWarnings` unset. -/
theorem c6_ignore_warnings (sevOf : Nat → String) (issueList : List RawIssue)
    (preModalities : List String) :
    (formatIssues sevOf true issueList).warnings = [] ∧
    (finalizeIssues sevOf true issueList preModalities).1.warnings = [] ∧
    (formatIssues sevOf true issueList).errors =
      (formatIssues sevOf false issueList).errors ∧
    (finalizeIssues sevOf true issueList preModalities).1.errors =
      (finalizeIssues sevOf false issueList preModalities).1.errors ∧
    (finalizeIssues sevOf true issueList preModalities).2 =
      (finalizeIssues sevOf false issueList preModalities).2 := by
  have h1 : (formatIssues sevOf true issueList).warnings = [] := by
    simp [formatIssues]
  have h2 : (finalizeIssues sevOf true issueList preModalities).1.warnings = [] := by
    unfold finalizeIssues filterFieldmapWarnings
    split
    · exact h1
    · rw [h1]; rfl
  have h3 : (formatIssues sevOf true issueList).errors =
      (formatIssues sevOf false issueList).errors := rfl
  have h4 : (finalizeIssues sevOf true issueList preModalities).1.errors =
      (finalizeIssues sevOf false issueList preModalities).1.errors := by
    unfold finalizeIssues filterFieldmapWarnings
    split
    · exact h3
    · exact h3
  exact ⟨h1, h2, h3, h4, rfl⟩

/-- Claim C10. An issue whose static-table severity is neither `"error"`
nor `"warning"` lands in neither output list: its code group is absent
from both. -/
theorem c10_unknown_severity (sevOf : Nat → String) (ig : Bool)
    (issueList : List RawIssue) (c : Nat)
    (hne : sevOf c ≠ "error") (hnw : sevOf c ≠ "warning") :
    (∀ g ∈ (formatIssues sevOf ig issueList).errors, g.code ≠ c) ∧
    (∀ g ∈ (formatIssues sevOf ig issueList).warnings, g.code ≠ c) := by
  constructor
  · intro g hg hgc
    simp only [formatIssues, issueGroupsOf, List.mem_filter, List.mem_map] at hg
    obtain ⟨⟨c', _, hc'⟩, hsev⟩ := hg
    have hsevg : g.severity = sevOf g.code := by rw [← hc']
    rw [hgc] at hsevg
    rw [hsevg] at hsev
    exact hne (by simpa using hsev)
  · intro g hg hgc
    simp only [formatIssues, issueGroupsOf, List.mem_filter, List.mem_map] at hg
    obtain ⟨⟨c', _, hc'⟩, hsev⟩ := hg
    have hsevg : g.severity = sevOf g.code := by rw [← hc']
    rw [hgc] at hsevg
    rw [hsevg] at hsev
    simp only [Bool.and_eq_true] at hsev
    exact hnw (by simpa using hsev.1)

/-- Witness for C10: a code whose severity is `"ignored"` appears in
neither list. -/
theorem c10_unknown_severity_witness :
    (∀ g ∈ (formatIssues (fun c => if c = 5 then "ignored" else "error") false
      [⟨5, "/x", "e"⟩]).errors, g.code ≠ 5) ∧
    (∀ g ∈ (formatIssues (fun c => if c = 5 then "ignored" else "error") false
      [⟨5, "/x", "e"⟩]).warnings, g.code ≠ 5) :=
  c10_unknown_severity (fun c => if c = 5 then "ignored" else "error") false
    [⟨5, "/x", "e"⟩] 5 (by decide) (by decide)

/-! ### C7: deterministic ordering of the aggregated output -/

/-- Two sorted lists that are permutations of each other are equal,
assuming antisymmetry only on the elements involved. -/
theorem eq_of_perm_of_sorted_local {α : Type} {r : α → α → Prop} :
    ∀ {l₁ l₂ : List α}, l₁.Perm l₂ → List.Sorted r l₁ → List.Sorted r l₂ →
      (∀ a ∈ l₁, ∀ b ∈ l₁, r a b → r b a → a = b) → l₁ = l₂ := by
  intro l₁
  induction l₁ with
  | nil =>
    intro l₂ hp _ _ _
    exact List.Perm.nil_eq hp
  | cons a l₁ ih =>
    intro l₂ hp hs1 hs2 hinj
    cases l₂ with
    | nil => exact absurd (List.Perm.nil_eq hp.symm) (by simp)
    | cons b t =>
      by_cases hab : a = b
      · subst hab
        have hp' : l₁.Perm t := hp.cons_inv
        have ht := ih hp' (List.sorted_cons.mp hs1).2 (List.sorted_cons.mp hs2).2
          (fun x hx y hy => hinj x (List.mem_cons_of_mem a hx)
            y (List.mem_cons_of_mem a hy))
        rw [ht]
      · exfalso
        have hal2 : a ∈ b :: t := hp.subset (List.mem_cons_self a l₁)
        have hbl1 : b ∈ a :: l₁ := hp.symm.subset (List.mem_cons_self b t)
        have hat : a ∈ t := by
          rcases List.mem_cons.mp hal2 with h | h
          · exact absurd h hab
          · exact h
        have hbl : b ∈ l₁ := by
          rcases List.mem_cons.mp hbl1 with h | h
          · exact absurd h.symm hab
          · exact h
        have hrba : r b a := (List.sorted_cons.mp hs2).1 a hat
        have hrab : r a b := (List.sorted_cons.mp hs1).1 b hbl
        exact hab (hinj a (List.mem_cons_self a l₁) b
          (List.mem_cons_of_mem a hbl) hrab hrba)

theorem stringToList_inj (s t : String) (h : s.toList = t.toList) : s = t := by
  cases s
  cases t
  simpa [String.toList] using congrArg String.mk h

/-- Claim C7 (counterexample). The aggregated output is *not* independent
of append order in general: two same-code issues with the *same* relative
path but different evidence keep their append order (the sort is stable
and the comparator returns 0 on ties), so the two orders give different
outputs. -/
theorem c7_counterexample :
    formatIssues (fun _ => "error") false
      [⟨1, "/sub-01/a", "e1"⟩, ⟨1, "/sub-01/a", "e2"⟩] ≠
    formatIssues (fun _ => "error") false
      [⟨1, "/sub-01/a", "e2"⟩, ⟨1, "/sub-01/a", "e1"⟩] := by decide

/-- Claim C7 (amended). Within each code group the associated files are
sorted ascending by relative path, and when no two distinct issues of the
same code share a relative path, the aggregated output is independent of
the order in which the issues were appended (same-path ties are kept in
append order by the stable sort, hence the proviso). -/
theorem c7_deterministic_order (sevOf : Nat → String) (ig : Bool)
    (l₁ l₂ : List RawIssue) (hperm : l₁.Perm l₂)
    (hinj : ∀ a ∈ l₁, ∀ b ∈ l₁, a.code = b.code →
      a.relativePath = b.relativePath → a = b) :
    formatIssues sevOf ig l₁ = formatIssues sevOf ig l₂ ∧
    (∀ g ∈ (formatIssues sevOf ig l₁).errors ++
        (formatIssues sevOf ig l₁).warnings, List.Sorted fileLe g.files) := by
  constructor
  · have hcodes : List.insertionSort (α := Nat) (· ≤ ·) (l₁.map RawIssue.code).dedup =
        List.insertionSort (· ≤ ·) (l₂.map RawIssue.code).dedup := by
      apply eq_of_perm_of_sorted_local
      · exact (List.perm_insertionSort _ _).trans
          (((hperm.map RawIssue.code).dedup).trans
            (List.perm_insertionSort _ _).symm)
      · exact List.sorted_insertionSort _ _
      · exact List.sorted_insertionSort _ _
      · exact fun a _ b _ hab hba => le_antisymm hab hba
    have hfiles : ∀ c : Nat,
        List.insertionSort fileLe (l₁.filter (fun i => i.code = c)) =
        List.insertionSort fileLe (l₂.filter (fun i => i.code = c)) := by
      intro c
      apply eq_of_perm_of_sorted_local
      · exact (List.perm_insertionSort _ _).trans
          ((hperm.filter _).trans (List.perm_insertionSort _ _).symm)
      · exact List.sorted_insertionSort _ _
      · exact List.sorted_insertionSort _ _
      · intro a ha b hb hab hba
        have ha' : a ∈ l₁.filter (fun i => i.code = c) :=
          (List.perm_insertionSort fileLe _).subset ha
        have hb' : b ∈ l₁.filter (fun i => i.code = c) :=
          (List.perm_insertionSort fileLe _).subset hb
        have hac : a.code = c := by simpa using (List.mem_filter.mp ha').2
        have hbc : b.code = c := by simpa using (List.mem_filter.mp hb').2
        have hpath : a.relativePath = b.relativePath := by
          apply stringToList_inj
          exact strLtCh_conn _ _ hba hab
        exact hinj a (List.mem_filter.mp ha').1 b (List.mem_filter.mp hb').1
          (hac.trans hbc.symm) hpath
    have hgroups : ∀ c ∈ List.insertionSort (α := Nat) (· ≤ ·)
        (l₂.map RawIssue.code).dedup,
        (⟨c, sevOf c, List.insertionSort fileLe
          (l₁.filter (fun i => i.code = c))⟩ : IssueGroup) =
        ⟨c, sevOf c, List.insertionSort fileLe
          (l₂.filter (fun i => i.code = c))⟩ := by
      intro c _
      rw [hfiles c]
    have hgeq : issueGroupsOf sevOf l₁ = issueGroupsOf sevOf l₂ := by
      unfold issueGroupsOf
      rw [hcodes]
      exact List.map_congr_left hgroups
    unfold formatIssues
    rw [hgeq]
  · intro g hg
    have hg' : g ∈ issueGroupsOf sevOf l₁ := by
      rcases List.mem_append.mp hg with h | h
      · exact (List.mem_filter.mp h).1
      · exact (List.mem_filter.mp h).1
    unfold issueGroupsOf at hg'
    obtain ⟨c, _, hc⟩ := List.mem_map.mp hg'
    rw [← hc]
    exact List.sorted_insertionSort _ _

/-- Witness for the amended C7 at the claim's concrete input: two code-1
issues on `/sub-02/x` and `/sub-01/y` give the same output in either
append order, with the files sorted `/sub-01/y` before `/sub-02/x`. -/
theorem c7_deterministic_order_witness :
    formatIssues (fun _ => "error") false
      [⟨1, "/sub-02/x", "ev"⟩, ⟨1, "/sub-01/y", "ev"⟩] =
    formatIssues (fun _ => "error") false
      [⟨1, "/sub-01/y", "ev"⟩, ⟨1, "/sub-02/x", "ev"⟩] :=
  (c7_deterministic_order (fun _ => "error") false
    [⟨1, "/sub-02/x", "ev"⟩, ⟨1, "/sub-01/y", "ev"⟩]
    [⟨1, "/sub-01/y", "ev"⟩, ⟨1, "/sub-02/x", "ev"⟩]
    (by decide) (by decide)).1

/-! ### `quickTest` (validator module, lines 52–82)

A file is represented by its relative path (the external
`utils.files.relativePath`); a falsy (empty) path is skipped.  The
source's `path[i]` accesses on the reversed `split('/')` array appear as
`[i]?` lookups (`undefined` behaves as a failed comparison / falsy
value). -/

/-- The per-file check of the quickTest loop body (lines 56–77): skip a
falsy path or one whose second segment is `derivatives`; otherwise the
last segment must *contain* `.nii` (JS `includes`), the parent must be
`anat`/`func`/`dwi`, and the grandparent must be truthy (non-empty) and
start with `ses-` or `sub-`. -/
def quickTestFile (p : String) : Bool :=
  if p = "" then false
  else if (splitOnCh '/' p.toList)[1]? = some "derivatives".toList then false
  else
    (match (splitOnCh '/' p.toList).reverse[0]? with
     | some last => containsSeq ".nii".toList last
     | none => false) &&
    ((splitOnCh '/' p.toList).reverse[1]? == some "anat".toList ||
     (splitOnCh '/' p.toList).reverse[1]? == some "func".toList ||
     (splitOnCh '/' p.toList).reverse[1]? == some "dwi".toList) &&
    (match (splitOnCh '/' p.toList).reverse[2]? with
     | some grand => !grand.isEmpty &&
         (startsWithCL "ses-".toList grand || startsWithCL "sub-".toList grand)
     | none => false)

/-- The function `quickTest` (lines 52–82): scan the file list, `break` on the first
file passing the check. -/
def quickTest (paths : List String) : Bool :=
  match paths with
  | [] => false
  | p :: rest => if quickTestFile p then true else quickTest rest

/-- Modelled from the claim's words, for comparison with `quickTest`:
true iff at least one file path, outside any `derivatives` subtree (no
path segment equals `derivatives`), *ends in* a NIfTI extension (`.nii`
or `.nii.gz`) and lies directly under an `anat`, `func` or `dwi`
directory that is itself directly under a directory whose name starts
with `sub-` or `ses-`. -/
def couldBeBIDSSpec (paths : List String) : Bool :=
  paths.any (fun p =>
    !((splitOnCh '/' p.toList).any (fun seg => seg == "derivatives".toList)) &&
    (endsWithCL ".nii".toList p.toList || endsWithCL ".nii.gz".toList p.toList) &&
    ((splitOnCh '/' p.toList).reverse[1]? == some "anat".toList ||
     (splitOnCh '/' p.toList).reverse[1]? == some "func".toList ||
     (splitOnCh '/' p.toList).reverse[1]? == some "dwi".toList) &&
    (match (splitOnCh '/' p.toList).reverse[2]? with
     | some grand => startsWithCL "sub-".toList grand ||
         startsWithCL "ses-".toList grand
     | none => false))

/-- Claim C5 (counterexample). `quickTest` is not the claimed
characterisation: the code tests `path[0].includes('.nii')`, not "ends in
a NIfTI extension", so a file `sub-01_T1w.niix` under `/sub-01/anat/`
makes `quickTest` true while the claimed condition is false. -/
theorem c5_counterexample :
    quickTest ["/sub-01/anat/sub-01_T1w.niix"] = true ∧
    couldBeBIDSSpec ["/sub-01/anat/sub-01_T1w.niix"] = false := by decide

theorem quickTest_eq_any (paths : List String) :
    quickTest paths = paths.any quickTestFile := by
  induction paths with
  | nil => rfl
  | cons p ps ih =>
    unfold quickTest
    cases h : quickTestFile p with
    | true => simp [h]
    | false => simp [h, ih]

theorem quickTestFile_iff (p : String) :
    quickTestFile p = true ↔
      (p ≠ "" ∧
       (splitOnCh '/' p.toList)[1]? ≠ some "derivatives".toList ∧
       (∃ last, (splitOnCh '/' p.toList).reverse[0]? = some last ∧
          containsSeq ".nii".toList last = true) ∧
       ((splitOnCh '/' p.toList).reverse[1]? = some "anat".toList ∨
        (splitOnCh '/' p.toList).reverse[1]? = some "func".toList ∨
        (splitOnCh '/' p.toList).reverse[1]? = some "dwi".toList) ∧
       (∃ grand, (splitOnCh '/' p.toList).reverse[2]? = some grand ∧
          grand ≠ [] ∧ (startsWithCL "ses-".toList grand = true ∨
            startsWithCL "sub-".toList grand = true))) := by
  unfold quickTestFile
  by_cases hp : p = ""
  · simp [hp]
  · rw [if_neg hp]
    by_cases hd : (splitOnCh '/' p.toList)[1]? = some "derivatives".toList
    · rw [if_pos hd]
      constructor
      · intro h; exact absurd h (by simp)
      · rintro ⟨_, hne, _⟩
        exact absurd hd hne
    · rw [if_neg hd]
      simp at hd
      cases h0 : (splitOnCh '/' p.toList).reverse[0]? with
      | none => simp [hp, hd, h0]
      | some last =>
        cases h2 : (splitOnCh '/' p.toList).reverse[2]? with
        | none => simp [hp, hd, h0, h2]
        | some grand =>
          simp [hp, hd, h0, h2, List.isEmpty_iff, and_assoc, or_assoc]

/-- Claim C5 (amended). `quickTest files` is true iff at least one file
path is non-empty, its *second* path segment is not `derivatives`, its
last segment *contains* `.nii` (not necessarily as an extension), its
parent directory is `anat`, `func` or `dwi`, and its grandparent segment
is non-empty and starts with `ses-` or `sub-`; in particular a tree
containing only a root `participants.tsv` yields false. -/
theorem c5_quicktest_amended (paths : List String) :
    (quickTest paths = true ↔ ∃ p ∈ paths,
      (p ≠ "" ∧
       (splitOnCh '/' p.toList)[1]? ≠ some "derivatives".toList ∧
       (∃ last, (splitOnCh '/' p.toList).reverse[0]? = some last ∧
          containsSeq ".nii".toList last = true) ∧
       ((splitOnCh '/' p.toList).reverse[1]? = some "anat".toList ∨
        (splitOnCh '/' p.toList).reverse[1]? = some "func".toList ∨
        (splitOnCh '/' p.toList).reverse[1]? = some "dwi".toList) ∧
       (∃ grand, (splitOnCh '/' p.toList).reverse[2]? = some grand ∧
          grand ≠ [] ∧ (startsWithCL "ses-".toList grand = true ∨
            startsWithCL "sub-".toList grand = true)))) ∧
    quickTest ["/participants.tsv"] = false := by
  refine ⟨?_, by decide⟩
  rw [quickTest_eq_any, List.any_eq_true]
  simp only [quickTestFile_iff]

/-! ### Phase 1 of `fullTest` (validator module, lines 91–211)

The per-file branch of the `async.forEachOf` callback is embedded as a
pure state transition.  External collaborators (file reading and the
content validators for TSV, bvec, bval and JSON) are parameters; a
`calls` trace records every content-validator invocation.  NIfTI files
are only *deferred* into the `niftis` list in phase 1 (their validator
runs in phase 2 over that list). -/

/-- A parsed JSON sidecar as far as the core reads it: only `TaskName`
(line 201). -/
structure JsonV where
  taskName : Option String
deriving DecidableEq

/-- A file as handed over by the external enumerator. -/
structure BFile where
  name : String
  relativePath : String
  size : Nat
deriving DecidableEq

/-- The dataset summary under construction (lines 100–107). -/
structure SummaryS where
  sessions : List String
  subjects : List String
  tasks : List String
  modalities : List String
  totalFiles : Nat
  size : Nat
deriving DecidableEq

/-- A content-validator invocation, for the phase-1 call trace. -/
inductive VCall
  | tsv
  | bvec
  | bval
  | json
deriving DecidableEq

/-- The run-scoped state threaded through phase 1. -/
structure Phase1State where
  issues : List RawIssue
  niftis : List BFile
  events : List String
  jsonContentsDict : List (String × Option JsonV)
  bContentsDict : List (String × String)
  summary : SummaryS
  calls : List VCall
deriving DecidableEq

/-- The external collaborators used by phase 1. -/
structure Collab where
  readFileC : BFile → String
  tsvValidate : BFile → String → Bool → List RawIssue
  bvecValidate : BFile → String → List RawIssue
  bvalValidate : BFile → String → List RawIssue
  jsonValidate : BFile → String → List RawIssue × Option JsonV

/-- JS `s.slice(0, s.indexOf(c))`: cut before the first `c`; when
`indexOf` returns `-1`, `slice(0, -1)` drops the *last* character. -/
def sliceToCh (c : Char) (s : List Char) : List Char :=
  match List.findIdx? (fun d => d = c) s with
  | some i => s.take i
  | none => s.dropLast

/-- JS `if (item.indexOf('_') > -1) item = item.slice(0, item.indexOf('_'))`. -/
def cutUnd (s : List Char) : List Char :=
  match List.findIdx? (fun d => d = '_') s with
  | some j => s.take j
  | none => s

/-- Label extraction of lines 125–129 for `checkKey` in `{ses, sub}`:
when `path.indexOf(key + "-") > -1`, slice from that index, cut at the
first `/` (with the `slice(0, -1)` quirk when there is none), cut at the
first `_` if any, then drop the `key.length + 1` leading characters.
(An empty path never contains `key + "-"`, covering the `path &&`
truthiness guard.) -/
def extractLabel (key : String) (path : String) : Option String :=
  match idxOfSeq (key ++ "-").toList path.toList with
  | none => none
  | some i =>
    some (String.mk ((cutUnd (sliceToCh '/' (path.toList.drop i))).drop
      (key.toList.length + 1)))

/-- The function `indexOf === -1`-guarded push (the summary sets hold each label once). -/
def pushNew (l : List String) (x : String) : List String :=
  if l.contains x then l else l ++ [x]

/-- Byte-size accounting of lines 114–120. -/
def addSize (n : Nat) (s : SummaryS) : SummaryS :=
  ⟨s.sessions, s.subjects, s.tasks, s.modalities, s.totalFiles, s.size + n⟩

/-- Subject/session collection of lines 122–132 (the `checks` object is
iterated `ses` then `sub`; both read the original path). -/
def collectLabels (path : String) (s : SummaryS) : SummaryS :=
  ⟨(match extractLabel "ses" path with
    | some l => pushNew s.sessions l
    | none => s.sessions),
   (match extractLabel "sub" path with
    | some l => pushNew s.subjects l
    | none => s.subjects),
   s.tasks, s.modalities, s.totalFiles, s.size⟩

/-- Modality suffix of lines 148–152: last `_`-part of the path, cut at
its first `.` (with the `slice(0, -1)` quirk). -/
def modalitySuffix (path : String) : String :=
  String.mk (sliceToCh '.' ((splitOnCh '_' path.toList).getLastD []))

/-- Modality collection of lines 148–152. -/
def addModality (path : String) (s : SummaryS) : SummaryS :=
  ⟨s.sessions, s.subjects, s.tasks,
   pushNew s.modalities (modalitySuffix path), s.totalFiles, s.size⟩

/-- Task-name collection of lines 199–205: only when the file name
contains `task`; a missing or empty `TaskName` is falsy and skipped. -/
def addTaskName (fileName : String) (jsObj : Option JsonV) (s : SummaryS) :
    SummaryS :=
  if containsSeq "task".toList fileName.toList then
    match jsObj with
    | some o =>
      match o.taskName with
      | some t =>
        if t = "" then s
        else ⟨s.sessions, s.subjects, pushNew s.tasks t, s.modalities,
              s.totalFiles, s.size⟩
      | none => s
    | none => s
  else s

/-- The dispatch chain of lines 134–211 (after the unconditional size and
label accounting): invalid path → code-1 issue and nothing else;
`.nii`/`.nii.gz` → deferred into `niftis` plus modality summary;
`.tsv`/`.bvec`/`.bval`/`.json` → read and dispatch to the matching
content validator, recording shared state; anything else → untouched. -/
def processDispatch (cb : Collab) (st : Phase1State) (file : BFile) :
    Phase1State :=
  if !(isBIDS file.relativePath) then
    ⟨st.issues ++ [⟨1, file.relativePath, file.name⟩], st.niftis, st.events,
     st.jsonContentsDict, st.bContentsDict, st.summary, st.calls⟩
  else if endsWithCL ".nii".toList file.name.toList ||
      endsWithCL ".nii.gz".toList file.name.toList then
    ⟨st.issues, st.niftis ++ [file], st.events, st.jsonContentsDict,
     st.bContentsDict, addModality file.relativePath st.summary, st.calls⟩
  else if !(file.name == "") && endsWithCL ".tsv".toList file.name.toList then
    ⟨st.issues ++ cb.tsvValidate file (cb.readFileC file)
        (endsWithCL "_events.tsv".toList file.name.toList),
     st.niftis,
     (if endsWithCL "_events.tsv".toList file.name.toList
      then st.events ++ [file.relativePath] else st.events),
     st.jsonContentsDict, st.bContentsDict, st.summary,
     st.calls ++ [VCall.tsv]⟩
  else if !(file.name == "") && endsWithCL ".bvec".toList file.name.toList then
    ⟨st.issues ++ cb.bvecValidate file (cb.readFileC file), st.niftis,
     st.events, st.jsonContentsDict,
     st.bContentsDict ++ [(file.relativePath, cb.readFileC file)],
     st.summary, st.calls ++ [VCall.bvec]⟩
  else if !(file.name == "") && endsWithCL ".bval".toList file.name.toList then
    ⟨st.issues ++ cb.bvalValidate file (cb.readFileC file), st.niftis,
     st.events, st.jsonContentsDict,
     st.bContentsDict ++ [(file.relativePath, cb.readFileC file)],
     st.summary, st.calls ++ [VCall.bval]⟩
  else if !(file.name == "") && endsWithCL ".json".toList file.name.toList then
    ⟨st.issues ++ (cb.jsonValidate file (cb.readFileC file)).1, st.niftis,
     st.events,
     st.jsonContentsDict ++
       [(file.relativePath, (cb.jsonValidate file (cb.readFileC file)).2)],
     st.bContentsDict,
     addTaskName file.name (cb.jsonValidate file (cb.readFileC file)).2 st.summary,
     st.calls ++ [VCall.json]⟩
  else st

/-- One phase-1 step (lines 110–211): unconditional size and
subject/session accounting, then the dispatch chain. -/
def processFile (cb : Collab) (st : Phase1State) (file : BFile) : Phase1State :=
  processDispatch cb
    ⟨st.issues, st.niftis, st.events, st.jsonContentsDict, st.bContentsDict,
     collectLabels file.relativePath (addSize file.size st.summary), st.calls⟩
    file

/-- Claim C8. A file whose relative path every grammar predicate rejects
(`isBIDS` false) gets exactly one structural issue of code 1 (with the
file name as evidence) and nothing else: no content validator is invoked
(the call trace is unchanged) and the file enters neither `niftis`,
`events`, nor the per-path JSON/b-file dictionaries; only the
unconditional size and subject/session accounting of the step happens. -/
theorem c8_invalid_path (cb : Collab) (st : Phase1State) (file : BFile)
    (h : isBIDS file.relativePath = false) :
    processFile cb st file =
      ⟨st.issues ++ [⟨1, file.relativePath, file.name⟩], st.niftis, st.events,
       st.jsonContentsDict, st.bContentsDict,
       collectLabels file.relativePath (addSize file.size st.summary),
       st.calls⟩ := by
  unfold processFile processDispatch
  rw [h]
  simp

/-- A trivial instantiation of the external collaborators. -/
def trivialCollab : Collab :=
  ⟨fun _ => "", fun _ _ _ => [], fun _ _ => [], fun _ _ => [],
   fun _ _ => ([], none)⟩

/-- Witness for C8 at a concrete invalid path. -/
theorem c8_invalid_path_witness :
    processFile trivialCollab ⟨[], [], [], [], [], ⟨[], [], [], [], 1, 0⟩, []⟩
      ⟨"garbage", "/garbage", 7⟩ =
      ⟨[⟨1, "/garbage", "garbage"⟩], [], [], [], [],
       collectLabels "/garbage" (addSize 7 ⟨[], [], [], [], 1, 0⟩), []⟩ :=
  c8_invalid_path trivialCollab ⟨[], [], [], [], [], ⟨[], [], [], [], 1, 0⟩, []⟩
    ⟨"garbage", "/garbage", 7⟩ (by decide)
